import Mathlib

/-!
Verification of the layout/reading-order/serialization engine of this
repository (vendored `pymupdf4llm` helpers) against its natural-language
specification.

Coordinates are modelled as rationals (`ℚ`).  Python's `sorted`/`list.sort`
is a stable sort with respect to a total preorder; `List.insertionSort r`
with `r` a reflexive total preorder is that same stable sort (stable sorts
agree on all inputs), and unlike `List.mergeSort` it evaluates by kernel
reduction.  `pymupdf.Rect.intersects` tests for a non-empty (positive-area)
common rectangle; rectangle containment (`in`) is coordinate-wise.
-/

/-- A rectangle, as the four coordinates of a `pymupdf.Rect`. -/
structure RectQ where
  x0 : ℚ
  y0 : ℚ
  x1 : ℚ
  y1 : ℚ
deriving DecidableEq, Repr

/-- A classified layout box `(x0, y0, x1, y1, "class")` as used by
`find_reading_order` (source: utils.py). -/
structure LBox where
  x0 : ℚ
  y0 : ℚ
  x1 : ℚ
  y1 : ℚ
  cls : String
deriving DecidableEq, Repr

/-- The coordinate rectangle of a layout box (`b[:4]`). -/
def LBox.rect (b : LBox) : RectQ := ⟨b.x0, b.y0, b.x1, b.y1⟩

/-- utils.py `bbox_is_empty`: `bbox[0] >= bbox[2] or bbox[1] >= bbox[3]`. -/
def bbox_is_empty (r : RectQ) : Bool :=
  decide (r.x1 ≤ r.x0) || decide (r.y1 ≤ r.y0)

/-- `pymupdf.Rect.intersects`: the two rectangles share a non-empty
(positive-extent) rectangle. -/
def rect_intersects (a b : RectQ) : Bool :=
  decide (max a.x0 b.x0 < min a.x1 b.x1) && decide (max a.y0 b.y0 < min a.y1 b.y1)

/-- `pymupdf` rectangle containment `inner in outer` (coordinate-wise). -/
def rect_in_rect (inner outer : RectQ) : Bool :=
  decide (outer.x0 ≤ inner.x0) && decide (outer.y0 ≤ inner.y0) &&
    decide (inner.x1 ≤ outer.x1) && decide (inner.y1 ≤ outer.y1)

/-- utils.py `outside_bbox` (non-strict variant, the one used by the
reading-order engine): the two rectangles touch at most at their borders. -/
def outside_bbox (bbox cell : RectQ) : Bool :=
  decide (cell.x1 ≤ bbox.x0) || decide (bbox.x1 ≤ cell.x0) ||
    decide (cell.y1 ≤ bbox.y0) || decide (bbox.y1 ≤ cell.y0)

/-- `find_reading_order.is_contained`: `inner` lies coordinate-wise inside
`outer` and the two (5-tuples, class included) differ. -/
def is_contained (inner outer : LBox) : Bool :=
  decide (outer.x0 ≤ inner.x0) && decide (outer.y0 ≤ inner.y0) &&
    decide (inner.x1 ≤ outer.x1) && decide (inner.y1 ≤ outer.y1) &&
    decide (inner ≠ outer)

/-- The sort key of `filter_contained`: box area `(r[2]-r[0])*(r[3]-r[1])`. -/
def box_area (b : LBox) : ℚ := (b.x1 - b.x0) * (b.y1 - b.y0)

/-- `find_reading_order.filter_contained`: sort by descending area (stably),
then keep a box unless it is contained in an already-kept box. -/
def filter_contained (boxes : List LBox) : List LBox :=
  (List.insertionSort (fun a b => box_area b ≤ box_area a) boxes).foldl
    (fun result r =>
      if result.any (fun other => is_contained r other) then result
      else result ++ [r])
    []

/-- One step of the greedy left-to-right column clustering shared by
`is_multi_column_layout` (gap 3) and `cluster_substripe` (gap 1): close the
current column when the next box starts more than `gap` to the right of the
current column's right edge.  `close` is applied to a finished column
(`cluster_substripe` sorts it by top, `is_multi_column_layout` keeps it). -/
def column_step (gap : ℚ) (close : List LBox → List LBox)
    (st : List (List LBox) × List LBox) (box : LBox) :
    List (List LBox) × List LBox :=
  let prev_right := ((st.2.map (fun b => b.x1)).max?).getD 0
  if decide (gap < box.x0 - prev_right) then (st.1 ++ [close st.2], [box])
  else (st.1, st.2 ++ [box])

/-- `cluster_stripes.is_multi_column_layout`: sort by left edge, cluster
greedily with horizontal gap 3, and report whether more than one column
results.  (Python indexes `sorted_boxes[0]` and so requires a non-empty
input; every caller guarantees that.) -/
def is_multi_column_layout (boxes : List LBox) : Bool :=
  match List.insertionSort (fun a b => a.x0 ≤ b.x0) boxes with
  | [] => false
  | first :: rest =>
    let st := rest.foldl (column_step 3 id) ([], [first])
    decide (1 < (st.1 ++ [st.2]).length)

/-- `cluster_stripes.divider`: a full-width rectangle of height
`vertical_gap` whose top is `y`. -/
def divider (y : ℚ) (box : RectQ) (vertical_gap : ℚ) : RectQ :=
  ⟨box.x0, y, box.x1, y + vertical_gap⟩

/-- The body of `cluster_stripes`' divider-collection loop for one box of
`sorted_boxes`.  Returns `none` where Python's `min()` over an empty
generator would raise `ValueError`. -/
def div_y_step (boxes sorted_boxes : List LBox) (joined : RectQ)
    (vectors : List RectQ) (vertical_gap : ℚ) (acc : List ℚ) (box : LBox) :
    Option (List ℚ) :=
  let y := box.y1
  if decide (joined.y1 ≤ y) then some acc
  else
    let div := divider y joined vertical_gap
    if boxes.any (fun b => rect_intersects div b.rect) then some acc
    else
      match ((sorted_boxes.filter (fun b => decide (div.y1 ≤ b.y0))).map
          (fun b => b.y0)).min? with
      | none => none
      | some ylow =>
        let div2 : RectQ := ⟨div.x0, div.y0, div.x1, ylow⟩
        let inter_count := (vectors.filter (fun vr =>
          rect_intersects div2 vr && decide (vr.y0 ≤ div2.y0) &&
            decide (div2.y1 ≤ vr.y1))).length
        if inter_count ≤ 1 then
          some (if ylow ∈ acc then acc else acc ++ [ylow])
        else some acc

/-- The final loop of `cluster_stripes`: for each divider value `y` (in
ascending order) pop the leading boxes with bottom `≤ y` into a stripe. -/
def stripes_of (y_values : List ℚ) (bs : List LBox) : List (List LBox) :=
  match y_values with
  | [] => []
  | y :: ys =>
    let taken := bs.takeWhile (fun b => decide (b.y1 ≤ y))
    let rest := bs.dropWhile (fun b => decide (b.y1 ≤ y))
    if taken.isEmpty then stripes_of ys rest else taken :: stripes_of ys rest

/-- utils.py `cluster_stripes`.  The divider `y`-values form a Python `set`
(modelled by membership-checked insertion) that is sorted ascending before
the stripe-popping loop. -/
def cluster_stripes (boxes : List LBox) (joined : RectQ)
    (vectors : List RectQ) (vertical_gap : ℚ) : Option (List (List LBox)) :=
  if boxes.isEmpty then some []
  else
    let sorted_boxes := List.insertionSort (fun a b => a.y1 ≤ b.y1) boxes
    if is_multi_column_layout boxes then some [boxes]
    else
      match List.foldlM (div_y_step boxes sorted_boxes joined vectors
          vertical_gap) [joined.y1] sorted_boxes with
      | none => none
      | some ys =>
        some (stripes_of (List.insertionSort (fun a b => a ≤ b) ys)
          sorted_boxes)

/-- `cluster_columns_in_stripe.cluster_substripe`: sort left-to-right, then
cluster greedily with horizontal gap 1, sorting each finished column by top. -/
def cluster_substripe (substripe : List LBox) : List (List LBox) :=
  match List.insertionSort (fun a b => a.x0 ≤ b.x0) substripe with
  | [] => []
  | first :: rest =>
    let sortY := List.insertionSort (fun a b : LBox => a.y0 ≤ b.y0)
    let st := rest.foldl (column_step 1 sortY) ([], [first])
    st.1 ++ [sortY st.2]

/-- `cluster_columns_in_stripe.expanded`: a box widened to the full stripe
width (only its coordinates matter to `outside_bbox`). -/
def expanded_box (x0 x1 : ℚ) (b : LBox) : RectQ := ⟨x0, b.y0, x1, b.y1⟩

/-- The solitary test of `cluster_columns_in_stripe`: every other box of the
stripe is outside the box's full-width horizontal band. -/
def is_solitary (stripe : List LBox) (x0 x1 : ℚ) (b : LBox) : Bool :=
  stripe.all (fun r => decide (r = b) || outside_bbox r.rect (expanded_box x0 x1 b))

/-- The solitary-driven region loop of `cluster_columns_in_stripe`:
for each solitary (top-to-bottom) emit the sub-stripe strictly between the
previous bottom `s0` and the solitary's top as columns, then the solitary
itself; after the last solitary emit the remaining sub-stripe (if any). -/
def sol_regions (stripe : List LBox) : ℚ → List LBox → List (List LBox)
  | s0, [] =>
    let sstripe := stripe.filter (fun b => decide (s0 ≤ b.y0))
    if sstripe.isEmpty then [] else cluster_substripe sstripe
  | s0, sol :: rest =>
    let sstripe := stripe.filter
      (fun b => decide (b.y1 ≤ sol.y0) && decide (s0 ≤ b.y0))
    cluster_substripe sstripe ++ ([sol] :: sol_regions stripe sol.y1 rest)

/-- utils.py `cluster_columns_in_stripe`.  (Python computes the stripe's
bounding box with `min`/`max` and so requires a non-empty stripe; stripes
produced by `cluster_stripes` are never empty.) -/
def cluster_columns_in_stripe (stripe : List LBox) : List (List LBox) :=
  let x0 := ((stripe.map (fun b => b.x0)).min?).getD 0
  let y0 := ((stripe.map (fun b => b.y0)).min?).getD 0
  let x1 := ((stripe.map (fun b => b.x1)).max?).getD 0
  let solitaries := stripe.filter (is_solitary stripe x0 x1)
  if solitaries.isEmpty then cluster_substripe stripe
  else
    sol_regions stripe y0
      (List.insertionSort (fun a b => a.y0 ≤ b.y0) solitaries)

/-- utils.py `compute_reading_order`: stripes, then columns inside each
stripe, concatenated. -/
def compute_reading_order (boxes : List LBox) (joined : RectQ)
    (vectors : List RectQ) (vertical_gap : ℚ) : Option (List LBox) :=
  match cluster_stripes boxes joined vectors vertical_gap with
  | none => none
  | some stripes =>
    some ((stripes.map (fun s => (cluster_columns_in_stripe s).flatten)).flatten)

/-- The sort key used for page headers and footers: `(r[1], r[0])`. -/
def header_le (a b : LBox) : Prop :=
  a.y0 < b.y0 ∨ (a.y0 = b.y0 ∧ a.x0 ≤ b.x0)

instance : DecidableRel header_le := fun a b => by
  unfold header_le; infer_instance

/-- utils.py `find_reading_order`: scale the vertical gap by page height,
drop contained boxes, split off page headers/footers, order the body via
`compute_reading_order` (with the body bounding box and the large vector
blocks), and concatenate.  An empty or degenerate body yields no ordered
body boxes (`EMPTY_RECT`/`bbox_is_empty` in the source). -/
def find_reading_order (page_height : ℚ) (blocks : List RectQ)
    (boxes : List LBox) (vertical_gap : ℚ) : Option (List LBox) :=
  let this_vertical_gap := vertical_gap * page_height / 800
  let filtered := filter_contained boxes
  let page_headers := filtered.filter (fun b => decide (b.cls = "page-header"))
  let page_footers := filtered.filter (fun b => decide (b.cls = "page-footer"))
  let body_boxes := filtered.filter (fun b =>
    !(decide (b.cls = "page-header")) && !(decide (b.cls = "page-footer")))
  let ordered :=
    if body_boxes.isEmpty then some []
    else
      let joined : RectQ :=
        ⟨((body_boxes.map (fun b => b.x0)).min?).getD 0,
         ((body_boxes.map (fun b => b.y0)).min?).getD 0,
         ((body_boxes.map (fun b => b.x1)).max?).getD 0,
         ((body_boxes.map (fun b => b.y1)).max?).getD 0⟩
      if bbox_is_empty joined then some []
      else
        let min_bbox_height : ℚ :=
          ((body_boxes.map (fun b => b.y1 - b.y0)).min?).getD 0
        let vectors := blocks.filter (fun r =>
          decide (min_bbox_height ≤ r.y1 - r.y0) && rect_in_rect r joined)
        compute_reading_order body_boxes joined vectors this_vertical_gap
  match ordered with
  | none => none
  | some body =>
    some (List.insertionSort header_le page_headers ++ body ++
      List.insertionSort header_le page_footers)

/-! ## Table serialization (utils.py `table_to_markdown`, `table_extract`)

Cell text extraction (`extract_cells`) is abstracted: `cell_boxes` holds
`some t` for a populated cell box whose extracted text is `t`, and `none`
for an absent (merged-away) cell box. -/

/-- The in-place propagation shared by the row fill of `table_to_markdown`
(`if cells[j][i+1] is None: cells[j][i+1] = cells[j][i]`) and its
header-row fill: a `none` cell receives the (already updated) previous
cell. -/
def fill_from_prev : Option String → List (Option String) → List (Option String)
  | _, [] => []
  | prev, c :: t =>
    let c2 := if c.isNone then prev else c
    c2 :: fill_from_prev c2 t

/-- Row-wise left-to-right fill of one row (the first cell is untouched). -/
def row_fill (row : List (Option String)) : List (Option String) :=
  match row with
  | [] => []
  | c :: t => c :: fill_from_prev c t

/-- Column-wise top-to-bottom fill: each row receives the (already updated)
previous row's values in its `none` positions. -/
def col_fill_from (prev : List (Option String)) :
    List (List (Option String)) → List (List (Option String))
  | [] => []
  | r :: t =>
    let r2 := List.zipWith (fun p c => if c.isNone then p else c) prev r
    r2 :: col_fill_from r2 t

/-- Column-wise fill of a grid (the first row is untouched). -/
def col_fill (g : List (List (Option String))) : List (List (Option String)) :=
  match g with
  | [] => []
  | r :: t => r :: col_fill_from r t

/-- The forward fill described by the specification: row-wise
left-to-right, then column-wise top-to-bottom. -/
def forward_fill (g : List (List (Option String))) : List (List (Option String)) :=
  col_fill (g.map row_fill)

/-- Write the extracted text of every populated cell box into the grid
(the extraction loop of `table_to_markdown`/`table_extract`). -/
def write_extracted (g : List (List (Option String)))
    (cell_boxes : List (List (Option String))) : List (List (Option String)) :=
  (cell_boxes.enum).foldl (fun g p =>
    (p.2.enum).foldl (fun g q =>
      match q.2 with
      | none => g
      | some txt => g.set p.1 ((g.getD p.1 []).set q.1 (some txt))) g) g

/-- Header-row fill of `table_to_markdown`: a `none` header cell becomes
`""` at index 0 and a copy of the (already updated) previous cell
otherwise. -/
def header_fill (row : List (Option String)) : List (Option String) :=
  match row with
  | [] => []
  | c :: t =>
    let c0 := if c.isNone then some "" else c
    c0 :: fill_from_prev c0 t

/-- The cell grid that `table_to_markdown` actually emits: the two fill
loops run on the freshly created all-`None` grid, extraction is performed
afterwards, and only the header row is filled after extraction. -/
def table_cells_code (row_count col_count : ℕ)
    (cell_boxes : List (List (Option String))) : List (List (Option String)) :=
  let cells0 := List.replicate row_count
    (List.replicate col_count (none : Option String))
  let cells2 := forward_fill cells0
  let cells3 := write_extracted cells2 cell_boxes
  match cells3 with
  | [] => []
  | r0 :: rs => header_fill r0 :: rs

/-- The cell grid described by the specification sentence "Table
serialization forward-fills blank cells (row-wise left-to-right fill, then
column-wise top-to-bottom fill) to reconstruct merged-cell spans before
emitting the Markdown grid": extraction first, then the forward fill. -/
def table_cells_spec (row_count col_count : ℕ)
    (cell_boxes : List (List (Option String))) : List (List (Option String)) :=
  let cells0 := List.replicate row_count
    (List.replicate col_count (none : Option String))
  forward_fill (write_extracted cells0 cell_boxes)

/-- The Markdown grid emitted by `table_to_markdown` (`None` detail cells
become empty strings; the header row is non-`None` after its fill). -/
def table_to_markdown (row_count col_count : ℕ)
    (cell_boxes : List (List (Option String))) : String :=
  let cells := table_cells_code row_count col_count cell_boxes
  let row0 := cells.headD []
  let header := "|" ++ String.intercalate "|" (row0.map (fun c => c.getD "")) ++ "|\n"
  let sep := "|" ++ String.intercalate "|" (List.replicate col_count "---") ++ "|\n"
  let details := (cells.drop 1).map (fun row =>
    "|" ++ String.join (row.map (fun c => c.getD "" ++ "|")) ++ "\n")
  header ++ sep ++ String.join details ++ "\n"

/-! ## Glyph repair (check_ocr.py `repair_blocks`) -/

/-- The Unicode replacement character `chr(0xFFFD)`. -/
def REPLACEMENT_CHARACTER : Char := Char.ofNat 0xFFFD

/-- One character of a span's `chars` array: the character and its retained
per-character data (bounding box). -/
structure CharItem where
  c : Char
  bbox : RectQ
deriving DecidableEq, Repr

/-- `repair_blocks` on a span with a `chars` array: if the span text
contains the replacement character, truncate the OCR text to the span's
character count and rebuild the `chars` array from the common prefix
(`for i in range(min(len(new_text), len(span["chars"])))`), copying each
original character record and replacing only its character. -/
def repair_span_chars (chars : List CharItem) (ocr_text : List Char) :
    List CharItem :=
  let span_text := chars.map (fun ci => ci.c)
  if REPLACEMENT_CHARACTER ∈ span_text then
    let new_text := ocr_text.take span_text.length
    List.zipWith (fun ch cd => { cd with c := ch }) new_text chars
  else chars

/-- `repair_blocks` on a span without a `chars` array: the span text is
replaced by the OCR text truncated to the original character count. -/
def repair_span_text (text ocr_text : List Char) : List Char :=
  if REPLACEMENT_CHARACTER ∈ text then ocr_text.take text.length else text

/-! ## OCR decision (check_ocr.py `should_ocr_page`, image_quality.py
`analyze_image`)

The page is abstracted by its `analyze_page` result and by the outcomes of
the four image-quality checks of `analyze_image` run on the rasterized
covered region; the pixmap and transform handed to the caller are opaque
tokens. -/

/-- The `analyze_page` fields consumed by `should_ocr_page`. -/
structure PageAnalysis where
  covered : RectQ
  ocr_spans : ℕ
  txt_area : ℚ
  vec_area : ℚ
  img_area : ℚ
  txt_joins : ℚ
  chars_total : ℕ
  chars_bad : ℕ
deriving DecidableEq, Repr

/-- The transform handed back by `should_ocr_page` (`pymupdf.Identity` or
the pixmap-to-page matrix computed by `get_page_image`). -/
inductive TransformV
  | identity
  | pageTransform
deriving DecidableEq, Repr

/-- The opaque full-page pixmap produced by `get_page_image`. -/
inductive PixV
  | pagePixmap
deriving DecidableEq, Repr

/-- The decision dictionary of `should_ocr_page`. -/
structure OcrDecision where
  should_ocr : Bool
  has_ocr_text : Bool
  has_text : Bool
  readable_text : Bool
  image_covers_page : Bool
  has_vector_chars : Bool
  transform : TransformV
  pixmap : Option PixV
deriving DecidableEq, Repr

/-- The initial decision dictionary. -/
def init_decision : OcrDecision :=
  ⟨false, false, false, false, false, false, .identity, none⟩

/-- image_quality.py `analyze_image` scoring: components and edges weigh 2
points each, entropy and FFT 1 point each. -/
def analyze_image_score (components_ok edges_ok entropy_ok fft_ok : Bool) : ℕ :=
  (if components_ok then 2 else 0) + (if edges_ok then 2 else 0) +
    (if entropy_ok then 1 else 0) + (if fft_ok then 1 else 0)

/-- check_ocr.py `get_page_image`: a score `≥ 3` classifies the page as
photo-like (no pixmap, identity matrix); otherwise the full-page pixmap
and its transform matrix are produced. -/
def get_page_image (score : ℕ) : TransformV × Option PixV × Bool :=
  if 3 ≤ score then (.identity, none, true)
  else (.pageTransform, some .pagePixmap, false)

/-- check_ocr.py `should_ocr_page`, with the page abstracted by `analysis`
and by the four image-quality check outcomes. -/
def should_ocr_page (analysis : PageAnalysis)
    (components_ok edges_ok entropy_ok fft_ok : Bool)
    (vector_thresh image_coverage_thresh text_readability_thresh : ℚ) :
    OcrDecision :=
  if bbox_is_empty analysis.covered then init_decision
  else if 0 < analysis.ocr_spans then
    { init_decision with has_ocr_text := true }
  else
    let d :=
      if decide (analysis.txt_area < 5/100) &&
          decide (analysis.chars_total < 200) &&
          decide (analysis.txt_joins < 3/10) then
        let d1 :=
          if vector_thresh ≤ analysis.vec_area then
            { init_decision with should_ocr := true, has_vector_chars := true }
          else init_decision
        if image_coverage_thresh ≤ analysis.img_area then
          { d1 with should_ocr := true, image_covers_page := true }
        else d1
      else if 200 ≤ analysis.chars_total then
        let readability : ℚ :=
          1 - (analysis.chars_bad : ℚ) / (analysis.chars_total : ℚ)
        if text_readability_thresh ≤ readability then
          { init_decision with
              has_text := true
              readable_text := true
              should_ocr := false }
        else
          { init_decision with
              has_text := true
              readable_text := false
              should_ocr := true }
      else init_decision
    if d.should_ocr = false then d
    else if d.readable_text = false ∧ d.has_text = true then d
    else if d.has_text = false then
      let gpi := get_page_image
        (analyze_image_score components_ok edges_ok entropy_ok fft_ok)
      if gpi.2.2 then { d with should_ocr := false, pixmap := none }
      else { d with should_ocr := true, transform := gpi.1, pixmap := gpi.2.1 }
    else d

/-! ## Input validation of document_layout.py `parse_document`

The validation that precedes the page loop is modelled over an abstract
`pages` argument whose sequence entries are Python ints or strings.  Any
error value means `parse_document` raises before any page is processed, so
no (partial) document is produced. -/

/-- A Python value appearing in a `pages` sequence. -/
inductive PyVal
  | intV (n : ℤ)
  | strV (s : String)
deriving DecidableEq, Repr

/-- `isinstance(p, int)`. -/
def PyVal.isInt : PyVal → Bool
  | .intV _ => true
  | .strV _ => false

/-- The Python exceptions the validation can raise. -/
inductive PyErr
  | valueError
  | typeError
  | indexError
deriving DecidableEq, Repr

/-- The `pages` argument: `None`, an int, a sequence, or a non-indexable
object. -/
inductive PagesArg
  | noneA
  | intA (n : ℤ)
  | seqA (l : List PyVal)
  | otherA
deriving DecidableEq, Repr

/-- Comparison used by `sorted` on a homogeneous set of ints or strings.
A cross-type comparison never reaches the sort (see `py_sorted_set`), so
the cross cases are chosen arbitrarily (ints first) to keep the relation a
total preorder. -/
def py_le : PyVal → PyVal → Prop
  | .intV a, .intV b => a ≤ b
  | .strV a, .strV b => a ≤ b
  | .intV _, .strV _ => True
  | .strV _, .intV _ => False

instance : DecidableRel py_le := fun a b => by
  cases a <;> cases b <;> unfold py_le <;> infer_instance

/-- Python `sorted(set(pages))`: deduplicate, then sort.  Sorting a set
that contains both an int and a non-int must compare the two kinds and
raises `TypeError`. -/
def py_sorted_set (l : List PyVal) : Except Unit (List PyVal) :=
  let d := l.dedup
  if d.any PyVal.isInt && d.any (fun v => !v.isInt) then .error ()
  else .ok (List.insertionSort py_le d)

/-- The final validation of `parse_document`:
`not all(isinstance(p, int) for p in page_filter) or page_filter[-1] >=
mydoc.page_count` raises `ValueError` (short-circuiting, so an all-int
check precedes the `[-1]` access, which raises `IndexError` on an empty
filter). -/
def check_page_filter (page_count : ℤ) (pf : List PyVal) :
    Except PyErr (List PyVal) :=
  if !(pf.all PyVal.isInt) then .error .valueError
  else
    match pf.getLast? with
    | none => .error .indexError
    | some (.intV n) => if page_count ≤ n then .error .valueError else .ok pf
    | some (.strV _) => .error .valueError

/-- The validation `parse_document` performs before its page loop: the
`embed_images`/`write_images` conflict check, then the `pages`
normalization and check.  (For a negative int `pages`, Python adds
`page_count` until non-negative, i.e. takes `pages % page_count` when
`page_count > 0` and loops forever when `page_count ≤ 0`.) -/
def parse_document_precheck (embed_images write_images : Bool)
    (page_count : ℤ) (pages : PagesArg) : Except PyErr (List PyVal) :=
  if embed_images && write_images then .error .valueError
  else
    match pages with
    | .noneA =>
      check_page_filter page_count
        ((List.range page_count.toNat).map (fun i => PyVal.intV i))
    | .intA n =>
      let n2 := if n < 0 ∧ 0 < page_count then n % page_count else n
      check_page_filter page_count [.intV n2]
    | .otherA => .error .valueError
    | .seqA l =>
      match py_sorted_set l with
      | .error _ => .error .typeError
      | .ok pf => check_page_filter page_count pf

/-! ## Text assembly (document_layout.py `get_styled_text`,
`get_plain_text`)

Python strings are modelled as `List Char`, matching Python's
character-based indexing, slicing and `len`. -/

/-- Python `s.endswith(suf)`. -/
def ends_with_chars (l suf : List Char) : Bool :=
  decide (l.drop (l.length - suf.length) = suf)

/-- Python `s[:-n]` for `n ≥ 1`. -/
def drop_right_chars (l : List Char) (n : ℕ) : List Char :=
  l.take (l.length - n)

/-- Python `s.strip()`. -/
def py_strip (l : List Char) : List Char :=
  ((l.dropWhile Char.isWhitespace).reverse.dropWhile Char.isWhitespace).reverse

/-- Helper of `py_words`: accumulate the current word (reversed). -/
def words_aux : List Char → List Char → List (List Char)
  | cur, [] => if cur.isEmpty then [] else [cur.reverse]
  | cur, c :: t =>
    if c.isWhitespace then
      if cur.isEmpty then words_aux [] t else cur.reverse :: words_aux [] t
    else words_aux (c :: cur) t

/-- Python `s.split()`: maximal runs of non-whitespace characters. -/
def py_words (l : List Char) : List (List Char) := words_aux [] l

/-- Python `s.split()[-1]` (callers guard non-emptiness via `endswith`). -/
def last_word (l : List Char) : List Char := (py_words l).getLastD []

/-- document_layout.py `OCR_FONTNAME`. -/
def OCR_FONTNAME : String := "GlyphLessFont"

/-- A text span as consumed by `get_styled_text`/`get_plain_text`. -/
structure StyledSpan where
  flags : ℕ
  char_flags : ℕ
  font : String
  text : List Char
  block : ℕ
  line : ℕ
deriving DecidableEq, Repr

/-- The Markdown style-opening string of a span (Python's local variable
built as strikeout ++ italic ++ bold ++ mono markers). -/
def span_markup (s : StyledSpan) : List Char :=
  let m0 : List Char :=
    if s.flags &&& 8 ≠ 0 ∧ s.font ≠ OCR_FONTNAME then ['`'] else []
  let m1 := if s.flags &&& 16 ≠ 0 ∨ s.char_flags &&& 8 ≠ 0 then
    '*' :: '*' :: m0 else m0
  let m2 := if s.flags &&& 2 ≠ 0 then '_' :: m1 else m1
  if s.char_flags &&& 1 ≠ 0 then '~' :: '~' :: m2 else m2

/-- The style-closing string: the character-reversed opening string. -/
def span_markup_suffix (s : StyledSpan) : List Char := (span_markup s).reverse

/-- One iteration of the `get_styled_text` loop.  The state is the
accumulated output with `old_block` and `old_line`.  When the output ends
with the new span's closing style, the style run is continued; across a
block/line change a trailing hyphen on a long-enough last word is removed
and the span is joined without a space. -/
def styled_step (st : List Char × ℕ × ℕ) (s : StyledSpan) :
    List Char × ℕ × ℕ :=
  let output := st.1
  let old_block := st.2.1
  let old_line := st.2.2
  let sfx := span_markup_suffix s
  let span_text := py_strip s.text
  if ends_with_chars output (sfx ++ [' ']) then
    let output2 := drop_right_chars output (sfx.length + 1)
    if (old_block, old_line) ≠ (s.block, s.line) ∧
        ends_with_chars output2 ['-'] ∧ 2 < (last_word output2).length then
      (drop_right_chars output2 1 ++ (span_text ++ sfx ++ [' ']),
        s.block, s.line)
    else if s.flags &&& 1 ≠ 0 then
      (output2 ++ (span_text ++ sfx ++ [' ']), s.block, s.line)
    else
      (output2 ++ (' ' :: (span_text ++ sfx ++ [' '])), s.block, s.line)
  else
    (output ++ (span_markup s ++ span_text ++ sfx ++ [' ']), s.block, s.line)

/-- document_layout.py `get_styled_text`: fold the spans (initial
`old_block = old_line = 0`), returning the text and the closing style of
the last span (initially empty). -/
def get_styled_text (spans : List StyledSpan) : List Char × List Char :=
  let st := spans.foldl styled_step ([], 0, 0)
  (st.1, ((spans.getLast?).map span_markup_suffix).getD [])

/-- One iteration of the `get_plain_text` loop (`i` is the span index):
superscript handling, then hyphen repair, then append. -/
def plain_step (output : List Char) (i : ℕ) (s : StyledSpan) : List Char :=
  let superscript := s.flags &&& 1 ≠ 0
  let span_text := py_strip s.text
  let span_text2 :=
    if superscript ∧ i = 0 then '[' :: (span_text ++ [']', ' '])
    else span_text
  let output2 :=
    if superscript ∧ i ≠ 0 ∧ ends_with_chars output [' '] then
      drop_right_chars output 1
    else output
  let output3 :=
    if ends_with_chars output2 ['-', ' '] ∧ 2 < (last_word output2).length then
      drop_right_chars output2 2
    else output2
  output3 ++ span_text2 ++ [' ']

/-- document_layout.py `get_plain_text`. -/
def get_plain_text (spans : List StyledSpan) : List Char :=
  (spans.enum).foldl (fun o p => plain_step o p.1 p.2) []

/-! ## List-item levels (document_layout.py `create_list_item_levels`) -/

/-- A `page.layout_information` box as consumed by
`create_list_item_levels`. -/
structure LayoutBox where
  x0 : ℚ
  y0 : ℚ
  x1 : ℚ
  y1 : ℚ
  boxclass : String
deriving DecidableEq, Repr

/-- One step of the segmentation loop: a non-list-item closes the current
segment; a list-item whose box starts right of the previous item's right
edge or ends above the previous item's top also closes it, then is
appended. -/
def seg_step (st : List (List (ℕ × LayoutBox)) × List (ℕ × LayoutBox))
    (p : ℕ × LayoutBox) :
    List (List (ℕ × LayoutBox)) × List (ℕ × LayoutBox) :=
  if p.2.boxclass ≠ "list-item" then
    if st.2.isEmpty then st else (st.1 ++ [st.2], [])
  else
    match st.2.getLast? with
    | none => (st.1, st.2 ++ [p])
    | some q =>
      if decide (q.2.x1 < p.2.x0) || decide (p.2.y1 < q.2.y0) then
        (st.1 ++ [st.2], [p])
      else (st.1, st.2 ++ [p])

/-- The segments of contiguous list items (with their original indices). -/
def create_segments (layout_info : List LayoutBox) :
    List (List (ℕ × LayoutBox)) :=
  let st := (layout_info.enum).foldl seg_step ([], [])
  if st.2.isEmpty then st.1 else st.1 ++ [st.2]

/-- One step of the level assignment: increase the level exactly when the
left edge moved more than 10 points right of the previous item's. -/
def level_step (st : List (ℕ × LayoutBox × ℕ) × LayoutBox × ℕ)
    (q : ℕ × LayoutBox) : List (ℕ × LayoutBox × ℕ) × LayoutBox × ℕ :=
  let pl := st.2.2
  if decide (st.2.1.x0 + 10 < q.2.x0) then
    (st.1 ++ [(q.1, q.2, pl + 1)], q.2, pl + 1)
  else
    (st.1 ++ [(q.1, q.2, pl)], q.2, pl)

/-- Level assignment within one segment: sort by left edge (stably), give
the first item level 1, then fold `level_step`. -/
def level_items (s : List (ℕ × LayoutBox)) : List (ℕ × LayoutBox × ℕ) :=
  match List.insertionSort (fun a b : ℕ × LayoutBox => a.2.x0 ≤ b.2.x0) s with
  | [] => []
  | q :: rest => (rest.foldl level_step ([(q.1, q.2, 1)], q.2, 1)).1

/-- document_layout.py `create_list_item_levels`, as the association list
of `(box index, level)` entries (the Python dict; indices are unique). -/
def create_list_item_levels (layout_info : List LayoutBox) : List (ℕ × ℕ) :=
  (create_segments layout_info).foldl
    (fun d s =>
      if s.isEmpty then d
      else d ++ (level_items s).map (fun t => (t.1, t.2.2)))
    []

/-- Dictionary lookup `item_dict[i]` (keys are unique). -/
def level_lookup (d : List (ℕ × ℕ)) (i : ℕ) : Option ℕ :=
  (d.find? (fun p => p.1 = i)).map (fun p => p.2)

/-- The level of position `k` of an `x0`-sorted segment in closed form:
one more than the number of left-edge increases of more than 10 points
among the first `k` consecutive pairs. -/
def segment_level (lefts : List ℚ) (k : ℕ) : ℕ :=
  1 + (((lefts.zip lefts.tail).take k).filter
    (fun p => decide (p.1 + 10 < p.2))).length

/-! ## Concrete inputs used by the counterexamples and witnesses -/

/-- A 2×2 table in which only the top-left cell box is populated (extracted
text `"A"`). -/
def table_ex_cell_boxes : List (List (Option String)) :=
  [[some "A", none], [none, none]]

/-- A three-character span whose first character is the replacement
character. -/
def repair_ex_chars : List CharItem :=
  [⟨REPLACEMENT_CHARACTER, ⟨0, 0, 1, 1⟩⟩, ⟨'a', ⟨1, 0, 2, 1⟩⟩,
   ⟨'b', ⟨2, 0, 3, 1⟩⟩]

/-- A large body box. -/
def box_big : LBox := ⟨0, 0, 100, 100, "text"⟩

/-- A box fully contained in `box_big`. -/
def box_small : LBox := ⟨10, 10, 20, 20, "text"⟩

/-- A degenerate (zero-width) box. -/
def deg_box1 : LBox := ⟨0, 0, 0, 5, "text"⟩

/-- A degenerate box that strictly contains `deg_box1` as a rectangle. -/
def deg_box2 : LBox := ⟨0, 0, 0, 10, "text"⟩

/-- Span `"exam-"`, block 1, line 1, no styling. -/
def span_exam : StyledSpan :=
  { flags := 0, char_flags := 0, font := "Helvetica", text := "exam-".data,
    block := 1, line := 1 }

/-- Span `"ple"`, block 1, line 2, no styling. -/
def span_ple : StyledSpan :=
  { flags := 0, char_flags := 0, font := "Helvetica", text := "ple".data,
    block := 1, line := 2 }

/-- Span `"ple"`, block 1, line 2, bold (`flags & 16`). -/
def span_ple_bold : StyledSpan :=
  { flags := 16, char_flags := 0, font := "Helvetica", text := "ple".data,
    block := 1, line := 2 }

/-- List-item boxes at left edges 10, 10, 25 forming one segment. -/
def li_box1 : LayoutBox := ⟨10, 0, 40, 5, "list-item"⟩

/-- See `li_box1`. -/
def li_box2 : LayoutBox := ⟨10, 6, 40, 11, "list-item"⟩

/-- See `li_box1`. -/
def li_box3 : LayoutBox := ⟨25, 12, 55, 17, "list-item"⟩

/-- A list-item box at left edge 0 (same segment as `li_box_right`). -/
def li_box_left : LayoutBox := ⟨0, 0, 40, 5, "list-item"⟩

/-- A list-item box exactly 10 points right of `li_box_left`. -/
def li_box_right : LayoutBox := ⟨10, 6, 40, 11, "list-item"⟩

/-- A `pages` sequence mixing an int and a string. -/
def pages_mixed : List PyVal := [PyVal.intV 1, PyVal.strV "a"]

/-- Analysis of a page with readable text: 250 characters, 10 bad. -/
def analysis_text_good : PageAnalysis := ⟨⟨0, 0, 100, 100⟩, 0, 1, 0, 0, 1, 250, 10⟩

/-- Analysis of a page with unreadable text: 250 characters, 50 bad. -/
def analysis_text_bad : PageAnalysis := ⟨⟨0, 0, 100, 100⟩, 0, 1, 0, 0, 1, 250, 50⟩

/-- Analysis of a text-free page fully covered by an image. -/
def analysis_preset : PageAnalysis := ⟨⟨0, 0, 100, 100⟩, 0, 0, 1, 1, 0, 0, 0⟩

/-! # Theorems -/

theorem should_ocr_page_text_branch (a : PageAnalysis) (c e en f : Bool)
    (vt it tt : ℚ) (hcov : bbox_is_empty a.covered = false)
    (hocr : a.ocr_spans = 0) (htot : 200 ≤ a.chars_total) :
    should_ocr_page a c e en f vt it tt =
      (if tt ≤ 1 - (a.chars_bad : ℚ) / (a.chars_total : ℚ) then
        { init_decision with
            has_text := true
            readable_text := true
            should_ocr := false }
      else
        { init_decision with
            has_text := true
            readable_text := false
            should_ocr := true }) := by
  have h1 : ¬ (a.chars_total < 200) := by omega
  simp only [should_ocr_page, hcov, hocr, h1, htot, Bool.false_eq_true,
    if_false, lt_irrefl, decide_False, Bool.and_false, Bool.false_and,
    decide_eq_true_eq, if_true]
  simp only [decide_eq_true_eq] at *
  split
  · simp [init_decision]
  · simp [init_decision]

/-- C4: for every page analysis with a non-empty covered region, no
OCR-origin spans and at least 200 characters, `should_ocr_page` sets
`has_text` and decides by `readability = 1 - chars_bad/chars_total`
against the default threshold 0.9: readable pages skip OCR, unreadable
ones request it.  Concretely, 250 characters with 10 bad (readability
0.96) skip OCR; with 50 bad (readability 0.80) OCR is requested. -/
theorem C4_ocr_readability (a : PageAnalysis) (c e en f : Bool) (vt it : ℚ)
    (hcov : bbox_is_empty a.covered = false) (hocr : a.ocr_spans = 0)
    (htot : 200 ≤ a.chars_total) :
    ((should_ocr_page a c e en f vt it (9/10)).has_text = true
      ∧ ((9/10 : ℚ) ≤ 1 - (a.chars_bad : ℚ) / (a.chars_total : ℚ) →
          (should_ocr_page a c e en f vt it (9/10)).should_ocr = false ∧
          (should_ocr_page a c e en f vt it (9/10)).readable_text = true)
      ∧ (1 - (a.chars_bad : ℚ) / (a.chars_total : ℚ) < 9/10 →
          (should_ocr_page a c e en f vt it (9/10)).should_ocr = true ∧
          (should_ocr_page a c e en f vt it (9/10)).readable_text = false))
    ∧ (1 - (analysis_text_good.chars_bad : ℚ) / (analysis_text_good.chars_total : ℚ)
        = 24/25
      ∧ (should_ocr_page analysis_text_good c e en f vt it (9/10)).should_ocr = false
      ∧ (should_ocr_page analysis_text_good c e en f vt it (9/10)).readable_text = true)
    ∧ (1 - (analysis_text_bad.chars_bad : ℚ) / (analysis_text_bad.chars_total : ℚ)
        = 4/5
      ∧ (should_ocr_page analysis_text_bad c e en f vt it (9/10)).should_ocr = true
      ∧ (should_ocr_page analysis_text_bad c e en f vt it (9/10)).readable_text = false) := by
  rw [should_ocr_page_text_branch a c e en f vt it (9/10) hcov hocr htot]
  rw [should_ocr_page_text_branch analysis_text_good c e en f vt it (9/10)
    (by decide) (by decide) (by decide)]
  rw [should_ocr_page_text_branch analysis_text_bad c e en f vt it (9/10)
    (by decide) (by decide) (by decide)]
  refine ⟨⟨?_, ?_, ?_⟩, ⟨?_, ?_, ?_⟩, ⟨?_, ?_, ?_⟩⟩
  · split <;> rfl
  · intro h; rw [if_pos h]; exact ⟨rfl, rfl⟩
  · intro h; rw [if_neg (by linarith)]; exact ⟨rfl, rfl⟩
  · show (1 : ℚ) - (10 : ℚ) / 250 = 24/25; norm_num
  · rw [if_pos (by show (9/10 : ℚ) ≤ 1 - (10 : ℚ) / 250; norm_num)]
  · rw [if_pos (by show (9/10 : ℚ) ≤ 1 - (10 : ℚ) / 250; norm_num)]
  · show (1 : ℚ) - (50 : ℚ) / 250 = 4/5; norm_num
  · rw [if_neg (by show ¬ ((9/10 : ℚ) ≤ 1 - (50 : ℚ) / 250); norm_num)]
  · rw [if_neg (by show ¬ ((9/10 : ℚ) ≤ 1 - (50 : ℚ) / 250); norm_num)]

/-- Witness for C4 at the two concrete analyses. -/
theorem C4_ocr_readability_witness :
    (should_ocr_page analysis_text_good true true true true (9/10) (9/10)
      (9/10)).should_ocr = false ∧
    (should_ocr_page analysis_text_bad true true true true (9/10) (9/10)
      (9/10)).should_ocr = true :=
  ⟨(C4_ocr_readability analysis_text_good true true true true (9/10) (9/10)
      (by decide) (by decide) (by decide)).2.1.2.1,
   (C4_ocr_readability analysis_text_bad true true true true (9/10) (9/10)
      (by decide) (by decide) (by decide)).2.2.2.1⟩

theorem should_ocr_page_preset_branch (a : PageAnalysis) (c e en f : Bool)
    (vt it tt : ℚ) (hcov : bbox_is_empty a.covered = false)
    (hocr : a.ocr_spans = 0) (harea : a.txt_area < 5/100)
    (hchars : a.chars_total < 200) (hjoins : a.txt_joins < 3/10)
    (hpre : vt ≤ a.vec_area ∨ it ≤ a.img_area) :
    should_ocr_page a c e en f vt it tt =
      (let d :=
        { init_decision with
            should_ocr := true
            has_vector_chars := decide (vt ≤ a.vec_area)
            image_covers_page := decide (it ≤ a.img_area) }
      if 3 ≤ analyze_image_score c e en f then
        { d with should_ocr := false, pixmap := none }
      else
        { d with
            should_ocr := true
            transform := TransformV.pageTransform
            pixmap := some PixV.pagePixmap }) := by
  simp only [should_ocr_page, hcov, hocr, Bool.false_eq_true, if_false,
    lt_irrefl, harea, hchars, hjoins, decide_True, Bool.and_self, if_true,
    get_page_image]
  rcases hpre with hv | hi
  · by_cases hi2 : it ≤ a.img_area
    · simp [hv, hi2, init_decision]
      split <;> rfl
    · simp [hv, hi2, init_decision]
      split <;> rfl
  · by_cases hv2 : vt ≤ a.vec_area
    · simp [hv2, hi, init_decision]
      split <;> rfl
    · simp [hv2, hi, init_decision]
      split <;> rfl

/-- C5: when the decision policy has indicated OCR on a page without
extractable text, the page is rasterized and scored by the image-quality
analyzer (components 2, edges 2, entropy 1, FFT 1 — total at most 6); a
score of at least 3 classifies the page photo-like, suppressing OCR and
discarding the pixmap, while a lower score confirms OCR with transform
and pixmap retained. -/
theorem C5_photo_like_suppression (a : PageAnalysis) (c e en f : Bool)
    (vt it tt : ℚ) (hcov : bbox_is_empty a.covered = false)
    (hocr : a.ocr_spans = 0) (harea : a.txt_area < 5/100)
    (hchars : a.chars_total < 200) (hjoins : a.txt_joins < 3/10)
    (hpre : vt ≤ a.vec_area ∨ it ≤ a.img_area) :
    analyze_image_score c e en f ≤ 6
    ∧ (should_ocr_page a c e en f vt it tt).has_text = false
    ∧ (3 ≤ analyze_image_score c e en f →
        (should_ocr_page a c e en f vt it tt).should_ocr = false ∧
        (should_ocr_page a c e en f vt it tt).pixmap = none)
    ∧ (analyze_image_score c e en f < 3 →
        (should_ocr_page a c e en f vt it tt).should_ocr = true ∧
        (should_ocr_page a c e en f vt it tt).transform =
          TransformV.pageTransform ∧
        (should_ocr_page a c e en f vt it tt).pixmap =
          some PixV.pagePixmap) := by
  rw [should_ocr_page_preset_branch a c e en f vt it tt hcov hocr harea
    hchars hjoins hpre]
  refine ⟨?_, ?_, ?_, ?_⟩
  · cases c <;> cases e <;> cases en <;> cases f <;> decide
  · split <;> rfl
  · intro h; rw [if_pos h]; exact ⟨rfl, rfl⟩
  · intro h; rw [if_neg (by omega)]; exact ⟨rfl, rfl, rfl⟩

/-- Witness for C5: a fully-covered text-free page, once with all four
quality checks passing (score 6, photo-like, OCR suppressed) and once with
all failing (score 0, OCR confirmed). -/
theorem C5_photo_like_suppression_witness :
    ((should_ocr_page analysis_preset true true true true (9/10) (9/10)
      (9/10)).should_ocr = false ∧
     (should_ocr_page analysis_preset true true true true (9/10) (9/10)
      (9/10)).pixmap = none) ∧
    ((should_ocr_page analysis_preset false false false false (9/10) (9/10)
      (9/10)).should_ocr = true ∧
     (should_ocr_page analysis_preset false false false false (9/10) (9/10)
      (9/10)).transform = TransformV.pageTransform ∧
     (should_ocr_page analysis_preset false false false false (9/10) (9/10)
      (9/10)).pixmap = some PixV.pagePixmap) :=
  ⟨(C5_photo_like_suppression analysis_preset true true true true (9/10)
      (9/10) (9/10) (by decide) (by decide) (by norm_num [analysis_preset])
      (by decide) (by norm_num [analysis_preset])
      (Or.inl (by norm_num [analysis_preset]))).2.2.1 (by decide),
   (C5_photo_like_suppression analysis_preset false false false false (9/10)
      (9/10) (9/10) (by decide) (by decide) (by norm_num [analysis_preset])
      (by decide) (by norm_num [analysis_preset])
      (Or.inl (by norm_num [analysis_preset]))).2.2.2 (by decide)⟩

theorem zipWith_const_left {α β γ : Type} (g : α → γ) (l1 : List α)
    (l2 : List β) :
    List.zipWith (fun a _ => g a) l1 l2 = (l1.take l2.length).map g := by
  induction l1 generalizing l2 with
  | nil => simp
  | cons a t ih =>
    cases l2 with
    | nil => simp
    | cons b t2 => simp [ih]

theorem zipWith_const_right {α β γ : Type} (g : β → γ) (l1 : List α)
    (l2 : List β) :
    List.zipWith (fun _ b => g b) l1 l2 = (l2.take l1.length).map g := by
  induction l1 generalizing l2 with
  | nil => simp
  | cons a t ih =>
    cases l2 with
    | nil => simp
    | cons b t2 => simp [ih]

/-- C2 (amended): splicing the OCR text into a span that contains the
replacement character truncates the OCR text to the span's original
character count, but the resulting `chars` array has
`min (OCR length) (original count)` characters: when the OCR result is
shorter, the stale tail is dropped rather than retained.  The repaired
prefix carries the OCR characters with the original per-character
bounding boxes. -/
theorem C2_repair_splice (chars : List CharItem) (ocr : List Char)
    (h : REPLACEMENT_CHARACTER ∈ chars.map (fun ci => ci.c)) :
    (repair_span_chars chars ocr).length = min ocr.length chars.length
    ∧ (repair_span_chars chars ocr).map (fun ci => ci.c) =
        ocr.take chars.length
    ∧ (repair_span_chars chars ocr).map (fun ci => ci.bbox) =
        (chars.map (fun ci => ci.bbox)).take (min ocr.length chars.length) := by
  unfold repair_span_chars
  rw [if_pos h]
  have hlen : (ocr.take (chars.map (fun ci => ci.c)).length).length =
      min ocr.length chars.length := by
    simp only [List.length_take, List.length_map]
    omega
  refine ⟨?_, ?_, ?_⟩
  · simp only [List.length_zipWith, List.length_take, List.length_map]
    omega
  · have := zipWith_const_left (id : Char → Char)
      (ocr.take (chars.map (fun ci => ci.c)).length) chars
    simp only [List.map_zipWith]
    simp only [id] at this
    rw [show (fun (ch : Char) (cd : CharItem) =>
        ({ cd with c := ch } : CharItem).c) = fun ch _ => ch from rfl]
    rw [this]
    simp [List.map_id, List.take_take, List.length_map]
  · simp only [List.map_zipWith]
    rw [show (fun (ch : Char) (cd : CharItem) =>
        ({ cd with c := ch } : CharItem).bbox) = fun _ cd => cd.bbox from rfl]
    rw [zipWith_const_right]
    rw [List.map_take, hlen]

/-- Witness for C2 at a concrete span and OCR text of equal length. -/
theorem C2_repair_splice_witness :
    (repair_span_chars repair_ex_chars ['x', 'y', 'z']).length = 3 ∧
    (repair_span_chars repair_ex_chars ['x', 'y', 'z']).map
      (fun ci => ci.c) = ['x', 'y', 'z'] :=
  ⟨by
    rw [(C2_repair_splice repair_ex_chars ['x', 'y', 'z'] (by decide)).1]
    decide,
   by
    rw [(C2_repair_splice repair_ex_chars ['x', 'y', 'z'] (by decide)).2.1]
    decide⟩

/-- C2 counterexample: a three-character span containing the replacement
character, repaired with a one-character OCR result, ends up with one
character — its character count is not preserved and the stale tail is
gone. -/
theorem C2_counterexample :
    REPLACEMENT_CHARACTER ∈ repair_ex_chars.map (fun ci => ci.c)
    ∧ repair_ex_chars.length = 3
    ∧ repair_span_chars repair_ex_chars ['x'] =
        [⟨'x', ⟨0, 0, 1, 1⟩⟩]
    ∧ (repair_span_chars repair_ex_chars ['x']).length ≠
        repair_ex_chars.length := by
  refine ⟨by decide, by decide, by decide, by decide⟩

theorem fill_from_prev_all_some (row : List (Option String))
    (h : ∀ c ∈ row, c.isSome = true) :
    ∀ prev, fill_from_prev prev row = row := by
  induction row with
  | nil => intro prev; rfl
  | cons c t ih =>
    intro prev
    have hrest : ∀ x ∈ t, x.isSome = true := fun x hx => h x (by simp [hx])
    rcases c with _ | a
    · have := h none (by simp)
      simp at this
    · simp [fill_from_prev, ih hrest]

theorem row_fill_all_some (row : List (Option String))
    (h : ∀ c ∈ row, c.isSome = true) : row_fill row = row := by
  cases row with
  | nil => rfl
  | cons c t =>
    simp only [row_fill]
    rw [fill_from_prev_all_some t (fun x hx => h x (by simp [hx]))]

theorem zip_fill_all_some (r prev : List (Option String))
    (hlen : r.length ≤ prev.length) (h : ∀ c ∈ r, c.isSome = true) :
    List.zipWith (fun p c => if c.isNone then p else c) prev r = r := by
  induction r generalizing prev with
  | nil => simp
  | cons c t ih =>
    cases prev with
    | nil => simp at hlen
    | cons p tp =>
      have hc : c.isNone = false := by
        have := h c (by simp)
        rcases c with _ | a
        · simp at this
        · rfl
      rw [List.zipWith_cons_cons, hc]
      simp only [Bool.false_eq_true, if_false]
      rw [ih tp (by simpa using hlen) (fun x hx => h x (by simp [hx]))]

theorem col_fill_from_all_some (cc : ℕ) (rows : List (List (Option String)))
    (prev : List (Option String)) (hp : prev.length = cc)
    (h : ∀ r ∈ rows, r.length = cc ∧ ∀ c ∈ r, c.isSome = true) :
    col_fill_from prev rows = rows := by
  induction rows generalizing prev with
  | nil => rfl
  | cons r t ih =>
    have hr := h r (by simp)
    simp only [col_fill_from]
    rw [zip_fill_all_some r prev (by omega) hr.2]
    rw [ih r hr.1 (fun x hx => h x (by simp [hx]))]

theorem fill_from_prev_replicate (n : ℕ) (prev : Option String) :
    fill_from_prev prev (List.replicate n none) = List.replicate n prev := by
  induction n generalizing prev with
  | zero => rfl
  | succ m ih => simp [List.replicate, fill_from_prev, ih]

theorem zip_fill_replicate (m : ℕ) (p : Option String) :
    List.zipWith (fun p c => if c.isNone then p else c)
      (List.replicate m p) (List.replicate m none) = List.replicate m p := by
  induction m with
  | zero => rfl
  | succ k ih => simp [List.replicate, ih]

theorem col_fill_from_replicate (k m : ℕ) (p : Option String) :
    col_fill_from (List.replicate m p)
      (List.replicate k (List.replicate m none)) =
      List.replicate k (List.replicate m p) := by
  induction k with
  | zero => rfl
  | succ j ih => simp [List.replicate, col_fill_from, zip_fill_replicate, ih]

/-- C1: the forward fill itself satisfies the claimed algebra — it leaves a
fully populated rectangular grid unchanged, and from a grid populated only
at the top-left cell it fills the first row and then, via the column fill,
the entire grid with that value — but `table_to_markdown` runs its two
fill loops on the freshly created all-`None` grid *before* extraction
writes any text, so on the 2×2 table populated only at the top-left the
emitted grid keeps its second row blank, diverging from the
fill-after-extraction grid the specification describes. -/
theorem C1_table_fill :
    (∀ g : List (List (Option String)),
        (∀ row ∈ g, ∀ c ∈ row, c.isSome = true) →
        (∀ r1 ∈ g, ∀ r2 ∈ g, r1.length = r2.length) →
        forward_fill g = g)
    ∧ (∀ (rr cs : ℕ) (v : String),
        forward_fill ((some v :: List.replicate cs none) ::
          List.replicate rr (List.replicate (cs + 1) none)) =
        List.replicate (rr + 1) (List.replicate (cs + 1) (some v)))
    ∧ table_cells_spec 2 2 table_ex_cell_boxes =
        [[some "A", some "A"], [some "A", some "A"]]
    ∧ table_cells_code 2 2 table_ex_cell_boxes =
        [[some "A", some "A"], [none, none]]
    ∧ table_to_markdown 2 2 table_ex_cell_boxes =
        "|A|A|\n|---|---|\n|||\n\n"
    ∧ table_cells_code 2 2 table_ex_cell_boxes ≠
        table_cells_spec 2 2 table_ex_cell_boxes := by
  have hmap : ∀ (l : List (List (Option String))),
      (∀ row ∈ l, ∀ c ∈ row, c.isSome = true) → l.map row_fill = l := by
    intro l hl
    induction l with
    | nil => rfl
    | cons r t ih =>
      simp only [List.map_cons]
      rw [row_fill_all_some r (hl r (by simp)),
        ih (fun x hx => hl x (by simp [hx]))]
  refine ⟨?_, ?_, by decide, by decide, by rfl, by decide⟩
  · intro g hsome hlen
    unfold forward_fill
    rw [hmap g hsome]
    cases g with
    | nil => rfl
    | cons r t =>
      simp only [col_fill]
      rw [col_fill_from_all_some r.length t r rfl]
      intro x hx
      exact ⟨hlen x (by simp [hx]) r (by simp), fun c hc => hsome x (by simp [hx]) c hc⟩
  · intro rr cs v
    have h0 : row_fill (some v :: List.replicate cs none) =
        List.replicate (cs + 1) (some v) := by
      simp only [row_fill, fill_from_prev_replicate, List.replicate_succ]
    have h1 : row_fill (List.replicate (cs + 1) (none : Option String)) =
        List.replicate (cs + 1) none := by
      rw [List.replicate_succ]
      simp only [row_fill, fill_from_prev_replicate, List.replicate_succ]
    unfold forward_fill
    simp only [List.map_cons, List.map_replicate, h0, h1]
    simp only [col_fill, col_fill_from_replicate]
    exact (List.replicate_succ _ _).symm

/-- Witness for C1's universally quantified fill facts at concrete grids. -/
theorem C1_table_fill_witness :
    forward_fill [[some "A", some "B"], [some "C", some "D"]] =
      [[some "A", some "B"], [some "C", some "D"]] :=
  C1_table_fill.1 [[some "A", some "B"], [some "C", some "D"]]
    (by decide) (by decide)

theorem getLast?_mem_of_eq {α : Type} :
    ∀ (l : List α) (m : α), l.getLast? = some m → m ∈ l := by
  intro l
  induction l with
  | nil => intro m hm; simp at hm
  | cons a t ih =>
    intro m hm
    cases t with
    | nil =>
      simp at hm
      simp [hm]
    | cons b tb =>
      rw [List.getLast?_cons_cons] at hm
      exact List.mem_cons_of_mem a (ih m hm)

theorem pairwise_rel_getLast? {α : Type} (r : α → α → Prop) :
    ∀ (l : List α) (m : α), l.getLast? = some m → l.Pairwise r →
      ∀ x ∈ l, x = m ∨ r x m := by
  intro l
  induction l with
  | nil => intro m hm; simp at hm
  | cons a t ih =>
    intro m hm hp x hx
    rcases List.pairwise_cons.mp hp with ⟨ha, hpt⟩
    cases t with
    | nil =>
      simp at hm hx
      left
      rw [hx, hm]
    | cons b tb =>
      rw [List.getLast?_cons_cons] at hm
      rcases List.mem_cons.mp hx with rfl | hxt
      · right
        exact ha m (getLast?_mem_of_eq _ m hm)
      · exact ih m hm hpt x hxt

/-- C7 (amended): `parse_document` raises `ValueError` before its page loop
when `embed_images` and `write_images` are both set; for a `pages`
sequence it raises `ValueError` when the entries are all ints with maximum
`≥ page_count`, and when the entries are uniformly non-int (sortable)
values; a sequence mixing int and non-int entries instead raises
`TypeError` from `sorted` — still before any page is processed.  An int
`pages` that is `≥ page_count` also raises `ValueError`.  (Only the upper
page bound is validated; negative entries pass this check.) -/
theorem C7_fail_fast (pc : ℤ) (e w : Bool) (hew : (e && w) = false)
    (hpc : 0 < pc) :
    (∀ pages, parse_document_precheck true true pc pages =
      Except.error PyErr.valueError)
    ∧ (∀ l : List PyVal, (∀ v ∈ l, v.isInt = true) →
        (∃ n : ℤ, PyVal.intV n ∈ l ∧ pc ≤ n) →
        parse_document_precheck e w pc (PagesArg.seqA l) =
          Except.error PyErr.valueError)
    ∧ (∀ l : List PyVal, l ≠ [] → (∀ v ∈ l, v.isInt = false) →
        parse_document_precheck e w pc (PagesArg.seqA l) =
          Except.error PyErr.valueError)
    ∧ (∀ l : List PyVal, (∃ v ∈ l, v.isInt = true) →
        (∃ v ∈ l, v.isInt = false) →
        parse_document_precheck e w pc (PagesArg.seqA l) =
          Except.error PyErr.typeError)
    ∧ (∀ n : ℤ, pc ≤ n → parse_document_precheck e w pc (PagesArg.intA n) =
        Except.error PyErr.valueError) := by
  refine ⟨?_, ?_, ?_, ?_, ?_⟩
  · intro pages
    simp [parse_document_precheck]
  · intro l hall ⟨n, hn, hpcn⟩
    simp only [parse_document_precheck, hew, Bool.false_eq_true, if_false,
      py_sorted_set]
    have hmix : (l.dedup.any (fun v => !v.isInt)) = false := by
      rw [List.any_eq_false]
      intro v hv
      simp [hall v (List.mem_dedup.mp hv)]
    rw [hmix]
    simp only [Bool.and_false, Bool.false_eq_true, if_false]
    set pf := List.insertionSort py_le l.dedup with hpf
    have hmem : PyVal.intV n ∈ pf := by
      rw [hpf]
      exact ((List.perm_insertionSort py_le l.dedup).mem_iff).mpr
        (List.mem_dedup.mpr hn)
    have hallpf : ∀ v ∈ pf, v.isInt = true := by
      intro v hv
      apply hall
      exact List.mem_dedup.mp
        (((List.perm_insertionSort py_le l.dedup).mem_iff).mp hv)
    have hne : pf ≠ [] := by
      intro h0
      rw [h0] at hmem
      simp at hmem
    simp only [check_page_filter]
    rw [show pf.all PyVal.isInt = true from List.all_eq_true.mpr hallpf]
    simp only [Bool.not_true, Bool.false_eq_true, if_false]
    rcases hgl : pf.getLast? with _ | m
    · rw [List.getLast?_eq_none_iff] at hgl
      exact absurd hgl hne
    · have hsorted : pf.Pairwise py_le := by
        rw [hpf]
        haveI : IsTotal PyVal py_le := ⟨by
          intro a b
          cases a <;> cases b <;> simp only [py_le] <;>
            first | exact Int.le_total _ _ | exact le_total _ _ |
              simp⟩
        haveI : IsTrans PyVal py_le := ⟨by
          intro a b c hab hbc
          cases a <;> cases b <;> cases c <;>
            simp only [py_le] at hab hbc ⊢ <;>
            first | omega | exact le_trans hab hbc⟩
        exact List.sorted_insertionSort py_le l.dedup
      obtain ⟨k, rfl⟩ : ∃ k, m = PyVal.intV k := by
        have hmm := hallpf m (getLast?_mem_of_eq pf m hgl)
        cases m with
        | intV k => exact ⟨k, rfl⟩
        | strV v => simp [PyVal.isInt] at hmm
      have hpck : pc ≤ k := by
        rcases pairwise_rel_getLast? py_le pf (PyVal.intV k) hgl hsorted
            (PyVal.intV n) hmem with heq | hle
        · cases heq
          exact hpcn
        · simp only [py_le] at hle
          omega
      simp [hpck]
  · intro l hne hall
    simp only [parse_document_precheck, hew, Bool.false_eq_true, if_false,
      py_sorted_set]
    have hmix : (l.dedup.any PyVal.isInt) = false := by
      rw [List.any_eq_false]
      intro v hv
      simp [hall v (List.mem_dedup.mp hv)]
    rw [hmix]
    simp only [Bool.false_and, Bool.false_eq_true, if_false]
    obtain ⟨v0, hv0⟩ : ∃ v0, v0 ∈ l := by
      cases l with
      | nil => exact absurd rfl hne
      | cons a t => exact ⟨a, by simp⟩
    have hv0pf : v0 ∈ List.insertionSort py_le l.dedup :=
      ((List.perm_insertionSort py_le l.dedup).mem_iff).mpr
        (List.mem_dedup.mpr hv0)
    simp only [check_page_filter]
    rw [show (List.insertionSort py_le l.dedup).all PyVal.isInt = false by
      rw [List.all_eq_false]
      exact ⟨v0, hv0pf, by simp [hall v0 hv0]⟩]
    rfl
  · intro l hi hs
    obtain ⟨vi, hvi, hvit⟩ := hi
    obtain ⟨vs, hvs, hvsf⟩ := hs
    simp only [parse_document_precheck, hew, Bool.false_eq_true, if_false,
      py_sorted_set]
    rw [show (l.dedup.any PyVal.isInt) = true from List.any_eq_true.mpr
      ⟨vi, List.mem_dedup.mpr hvi, hvit⟩]
    rw [show (l.dedup.any fun v => !v.isInt) = true from List.any_eq_true.mpr
      ⟨vs, List.mem_dedup.mpr hvs, by simp [hvsf]⟩]
    rfl
  · intro n hn
    have h0 : ¬ (n < 0) := by omega
    simp only [parse_document_precheck, hew, Bool.false_eq_true, if_false,
      h0, false_and, if_false, check_page_filter]
    simp [PyVal.isInt, hn]

/-- Witness for C7 at concrete inputs (page count 5). -/
theorem C7_fail_fast_witness :
    parse_document_precheck true true 5 PagesArg.noneA =
      Except.error PyErr.valueError
    ∧ parse_document_precheck false false 5 (PagesArg.seqA [PyVal.intV 7]) =
      Except.error PyErr.valueError
    ∧ parse_document_precheck false false 5
        (PagesArg.seqA [PyVal.strV "a", PyVal.strV "b"]) =
      Except.error PyErr.valueError
    ∧ parse_document_precheck false false 5 (PagesArg.seqA pages_mixed) =
      Except.error PyErr.typeError
    ∧ parse_document_precheck false false 5 (PagesArg.intA 7) =
      Except.error PyErr.valueError :=
  ⟨(C7_fail_fast 5 false false rfl (by decide)).1 PagesArg.noneA,
   (C7_fail_fast 5 false false rfl (by decide)).2.1 [PyVal.intV 7]
     (by decide) ⟨7, by decide, by decide⟩,
   (C7_fail_fast 5 false false rfl (by decide)).2.2.1
     [PyVal.strV "a", PyVal.strV "b"] (by decide) (by decide),
   (C7_fail_fast 5 false false rfl (by decide)).2.2.2.1 pages_mixed
     ⟨PyVal.intV 1, by decide, by decide⟩ ⟨PyVal.strV "a", by decide, by decide⟩,
   (C7_fail_fast 5 false false rfl (by decide)).2.2.2.2 7 (by decide)⟩

/-- C7 counterexample: a `pages` sequence mixing an int and a string is an
invalid page subset (it has a non-int entry), yet the validation fails
with `TypeError` (raised by `sorted`), not `ValueError`. -/
theorem C7_counterexample :
    parse_document_precheck false false 5 (PagesArg.seqA pages_mixed) =
      Except.error PyErr.typeError
    ∧ PyErr.typeError ≠ PyErr.valueError := by
  exact ⟨rfl, by decide⟩

theorem drop_right_add (l : List Char) (m n : ℕ) :
    drop_right_chars (drop_right_chars l m) n = drop_right_chars l (m + n) := by
  simp only [drop_right_chars, List.take_take, List.length_take]
  congr 1
  omega

/-- C8 (amended): when the accumulated output continues the incoming
span's styling (for a plain span: ends with a space), the two spans come
from a different source block/line, the output (with the closing style and
space removed) ends with a hyphen, and its last whitespace-separated token
has more than 2 characters, `get_styled_text` strips the hyphen and joins
the span with no intervening space; `get_plain_text` does the same on a
`"- "` ending regardless of block/line.  Concretely, `"exam-"` (block 1,
line 1) followed by `"ple"` (block 1, line 2) yields `"example "` in both
serializers.  (When the styling changes between the spans the styled
serializer takes its non-continuation branch and performs no hyphen
repair.) -/
theorem C8_hyphen_repair :
    (∀ (o : List Char) (ob ol : ℕ) (s : StyledSpan),
        s.flags = 0 → s.char_flags = 0 →
        ends_with_chars o [' '] = true →
        (ob, ol) ≠ (s.block, s.line) →
        ends_with_chars (drop_right_chars o 1) ['-'] = true →
        2 < (last_word (drop_right_chars o 1)).length →
        styled_step (o, ob, ol) s =
          (drop_right_chars o 2 ++ (py_strip s.text ++ [' ']),
            s.block, s.line))
    ∧ (∀ (o : List Char) (i : ℕ) (s : StyledSpan),
        s.flags &&& 1 = 0 →
        ends_with_chars o ['-', ' '] = true →
        2 < (last_word o).length →
        plain_step o i s = drop_right_chars o 2 ++ (py_strip s.text ++ [' ']))
    ∧ (get_styled_text [span_exam, span_ple]).1 = "example ".data
    ∧ get_plain_text [span_exam, span_ple] = "example ".data := by
  refine ⟨?_, ?_, by decide, by decide⟩
  · intro o ob ol s hf hcf hsp hbl hhy hlw
    have hsfx : span_markup_suffix s = [] := by
      simp [span_markup_suffix, span_markup, hf, hcf]
    simp only [styled_step, hsfx, List.nil_append, List.length_nil,
      Nat.zero_add, hsp, if_true]
    rw [if_pos ⟨hbl, hhy, hlw⟩]
    rw [drop_right_add]
    simp
  · intro o i s hf hhy hlw
    have hcond1 : ¬ ((s.flags &&& 1 ≠ 0) ∧ i = 0) := by simp [hf]
    have hcond2 : ¬ ((s.flags &&& 1 ≠ 0) ∧ i ≠ 0 ∧
        ends_with_chars o [' '] = true) := by simp [hf]
    simp only [plain_step]
    rw [if_neg hcond1, if_neg hcond2, if_pos ⟨hhy, hlw⟩]
    simp [List.append_assoc]

/-- Witness for C8's conditional merge rules at the concrete spans. -/
theorem C8_hyphen_repair_witness :
    styled_step ("exam- ".data, 1, 1) span_ple =
      (drop_right_chars "exam- ".data 2 ++ (py_strip span_ple.text ++ [' ']),
        span_ple.block, span_ple.line)
    ∧ plain_step "exam- ".data 1 span_ple =
      drop_right_chars "exam- ".data 2 ++ (py_strip span_ple.text ++ [' ']) :=
  ⟨C8_hyphen_repair.1 "exam- ".data 1 1 span_ple (by decide) (by decide)
      (by decide) (by decide) (by decide) (by decide),
   C8_hyphen_repair.2.1 "exam- ".data 1 span_ple (by decide) (by decide)
      (by decide)⟩

/-- C8 counterexample: the same `"exam-"`/`"ple"` pair from different
lines, but with the second span bold: the accumulated output `"exam- "`
ends with a hyphen on the 5-character word `"exam-"`, yet `get_styled_text`
keeps the hyphen and inserts a space (`"exam- **ple** "`), because the
style continuation test fails before the hyphen test is reached. -/
theorem C8_counterexample :
    (get_styled_text [span_exam, span_ple_bold]).1 = "exam- **ple** ".data
    ∧ (get_styled_text [span_exam, span_ple_bold]).1.take 6 = "exam- ".data
    ∧ span_exam.line = 1 ∧ span_ple_bold.line = 2
    ∧ span_exam.block = span_ple_bold.block := by
  refine ⟨by decide, by decide, by decide, by decide, by decide⟩

theorem level_fold_map : ∀ (ps : List (ℕ × LayoutBox))
    (acc : List (ℕ × LayoutBox × ℕ)) (pb : LayoutBox) (pl : ℕ),
    ((ps.foldl level_step (acc, pb, pl)).1).map (fun t => (t.1, t.2.2)) =
      acc.map (fun t => (t.1, t.2.2)) ++
      (List.range ps.length).map (fun j =>
        ((ps.getD j (0, ⟨0, 0, 0, 0, ""⟩)).1,
          pl + ((((pb.x0 :: ps.map (fun q => q.2.x0)).zip
            (ps.map (fun q => q.2.x0))).take (j + 1)).filter
            (fun p => decide (p.1 + 10 < p.2))).length)) := by
  intro ps
  induction ps with
  | nil =>
    intro acc pb pl
    simp
  | cons q t ih =>
    intro acc pb pl
    simp only [List.foldl_cons, level_step]
    by_cases hgap : pb.x0 + 10 < q.2.x0
    · rw [if_pos (by exact decide_eq_true hgap)]
      rw [ih (acc ++ [(q.1, q.2, pl + 1)]) q.2 (pl + 1)]
      simp only [List.map_append, List.map_cons, List.map_nil,
        List.append_assoc, List.singleton_append]
      congr 1
      rw [List.length_cons, List.range_succ_eq_map, List.map_cons,
        List.map_map]
      congr 1
      · simp only [List.getD_cons_zero, List.map_cons, List.zip_cons_cons,
          List.take_succ_cons, List.take_zero, List.filter_cons]
        simp [hgap]
      · apply List.map_congr_left
        intro j hj
        simp only [Function.comp_apply, List.getD_cons_succ, List.map_cons,
          List.zip_cons_cons, List.take_succ_cons, List.filter_cons]
        simp only [hgap, decide_True, if_true, List.length_cons,
          Nat.succ_eq_add_one]
        rw [Prod.ext_iff]
        refine ⟨rfl, ?_⟩
        omega
    · rw [if_neg (by simpa using hgap)]
      rw [ih (acc ++ [(q.1, q.2, pl)]) q.2 pl]
      simp only [List.map_append, List.map_cons, List.map_nil,
        List.append_assoc, List.singleton_append]
      congr 1
      rw [List.length_cons, List.range_succ_eq_map, List.map_cons,
        List.map_map]
      congr 1
      · simp only [List.getD_cons_zero, List.map_cons, List.zip_cons_cons,
          List.take_succ_cons, List.take_zero, List.filter_cons]
        simp [hgap]
      · apply List.map_congr_left
        intro j hj
        simp only [Function.comp_apply, List.getD_cons_succ, List.map_cons,
          List.zip_cons_cons, List.take_succ_cons, List.filter_cons]
        simp [hgap]

theorem snd_mem_of_mem_enumFrom : ∀ (l : List LayoutBox) (n : ℕ)
    (p : ℕ × LayoutBox), p ∈ l.enumFrom n → p.2 ∈ l := by
  intro l
  induction l with
  | nil => intro n p h; simp at h
  | cons a t ih =>
    intro n p h
    rw [List.enumFrom_cons] at h
    rcases List.mem_cons.mp h with rfl | h2
    · simp
    · exact List.mem_cons_of_mem a (ih (n + 1) p h2)

theorem pairwise_enumFrom {r : LayoutBox → LayoutBox → Prop} :
    ∀ (l : List LayoutBox) (n : ℕ), l.Pairwise r →
      (l.enumFrom n).Pairwise (fun p q => r p.2 q.2) := by
  intro l
  induction l with
  | nil => intro n _; simp
  | cons a t ih =>
    intro n h
    rw [List.enumFrom_cons]
    rcases List.pairwise_cons.mp h with ⟨ha, ht⟩
    refine List.pairwise_cons.mpr ⟨?_, ih (n + 1) ht⟩
    rintro ⟨i, x⟩ hq
    exact ha x (snd_mem_of_mem_enumFrom t (n + 1) (i, x) hq)

theorem enumFrom_getD_fst : ∀ (l : List LayoutBox) (n j : ℕ), j < l.length →
    ((l.enumFrom n).getD j (0, ⟨0, 0, 0, 0, ""⟩)).1 = n + j := by
  intro l
  induction l with
  | nil => intro n j h; simp at h
  | cons a t ih =>
    intro n j h
    cases j with
    | zero => simp [List.enumFrom_cons]
    | succ k =>
      rw [List.enumFrom_cons]
      simp only [List.getD_cons_succ]
      rw [ih (n + 1) k (by simpa using h)]
      omega

theorem seg_fold_single (segs : List (List (ℕ × LayoutBox))) :
    ∀ (l : List LayoutBox) (n : ℕ) (cur : List (ℕ × LayoutBox))
      (lastp : ℕ × LayoutBox),
      cur.getLast? = some lastp →
      (∀ b ∈ l, b.boxclass = "list-item") →
      List.Chain' (fun a b => ¬ (a.x1 < b.x0) ∧ ¬ (b.y1 < a.y0))
        (lastp.2 :: l) →
      (l.enumFrom n).foldl seg_step (segs, cur) = (segs, cur ++ l.enumFrom n) := by
  intro l
  induction l with
  | nil => intro n cur lastp _ _ _; simp
  | cons b t ih =>
    intro n cur lastp hlast hcls hchain
    rw [List.enumFrom_cons, List.foldl_cons]
    have hb : b.boxclass = "list-item" := hcls b (by simp)
    have hrel := (List.chain'_cons.mp hchain).1
    have hstep : seg_step (segs, cur) (n, b) = (segs, cur ++ [(n, b)]) := by
      simp only [seg_step, hb]
      rw [if_neg (by simp)]
      rw [hlast]
      simp [hrel.1, hrel.2]
    rw [hstep]
    rw [ih (n + 1) (cur ++ [(n, b)]) (n, b) (by simp)
      (fun x hx => hcls x (by simp [hx]))
      ((List.chain'_cons.mp hchain).2)]
    simp

theorem create_segments_single (L : List LayoutBox)
    (hcls : ∀ b ∈ L, b.boxclass = "list-item")
    (hchain : List.Chain' (fun a b => ¬ (a.x1 < b.x0) ∧ ¬ (b.y1 < a.y0)) L)
    (hne : L ≠ []) : create_segments L = [L.enum] := by
  cases L with
  | nil => exact absurd rfl hne
  | cons b t =>
    unfold create_segments
    rw [show List.enum (b :: t) = (0, b) :: List.enumFrom 1 t from rfl]
    rw [List.foldl_cons]
    have h1 : seg_step ([], []) (0, b) = ([], [(0, b)]) := by
      simp only [seg_step, hcls b (by simp)]
      rw [if_neg (by simp)]
      rfl
    rw [h1]
    rw [seg_fold_single [] t 1 [(0, b)] (0, b) (by simp)
      (fun x hx => hcls x (by simp [hx])) hchain]
    simp

theorem create_list_item_levels_single_segment (L : List LayoutBox)
    (hcls : ∀ b ∈ L, b.boxclass = "list-item")
    (hsorted : L.Pairwise (fun a b => a.x0 ≤ b.x0))
    (hchain : List.Chain' (fun a b => ¬ (a.x1 < b.x0) ∧ ¬ (b.y1 < a.y0)) L) :
    create_list_item_levels L =
      (List.range L.length).map
        (fun k => (k, segment_level (L.map (fun b => b.x0)) k)) := by
  rcases L with _ | ⟨b, t⟩
  · simp [create_list_item_levels, create_segments]
  · unfold create_list_item_levels
    rw [create_segments_single (b :: t) hcls hchain (by simp)]
    rw [List.foldl_cons, List.foldl_nil]
    rw [if_neg (by
      rw [show List.enum (b :: t) = (0, b) :: List.enumFrom 1 t from rfl]
      simp)]
    unfold level_items
    have hs : List.Sorted (fun a b : ℕ × LayoutBox => a.2.x0 ≤ b.2.x0)
        ((b :: t).enum) := pairwise_enumFrom (b :: t) 0 hsorted
    rw [List.Sorted.insertionSort_eq hs]
    rw [show List.enum (b :: t) = (0, b) :: List.enumFrom 1 t from rfl]
    simp only []
    rw [level_fold_map (List.enumFrom 1 t) [(0, b, 1)] b 1]
    have hmapx : (List.enumFrom 1 t).map (fun q => q.2.x0) =
        t.map (fun b => b.x0) := by
      rw [show (fun q : ℕ × LayoutBox => q.2.x0) =
        (fun b : LayoutBox => b.x0) ∘ Prod.snd from rfl]
      rw [← List.map_map, List.enumFrom_map_snd]
    rw [hmapx, List.enumFrom_length]
    simp only [List.nil_append, List.map_cons, List.map_nil,
      List.singleton_append, List.length_cons]
    rw [List.range_succ_eq_map, List.map_cons, List.map_map]
    congr 1
    simp [segment_level]
    intro a ha
    rw [List.getElem?_eq_getElem ha]
    simp [Nat.add_comm]

/-- C9 (amended): within a segment of contiguous list items, after the
stable sort by left edge the first item has level 1 and the level
increases by one exactly when the left edge moves *strictly more than* 10
points right of the previous item's left edge — in closed form, item `k`
has level `1 +` the number of such increases among the first `k`
consecutive pairs.  Concretely, left edges 10, 10, 25 give levels
`[1, 1, 2]`. -/
theorem C9_list_item_levels (L : List LayoutBox)
    (hcls : ∀ b ∈ L, b.boxclass = "list-item")
    (hsorted : L.Pairwise (fun a b => a.x0 ≤ b.x0))
    (hchain : List.Chain' (fun a b => ¬ (a.x1 < b.x0) ∧ ¬ (b.y1 < a.y0)) L) :
    create_list_item_levels L =
      (List.range L.length).map
        (fun k => (k, segment_level (L.map (fun b => b.x0)) k))
    ∧ create_list_item_levels [li_box1, li_box2, li_box3] =
        [(0, 1), (1, 1), (2, 2)] := by
  refine ⟨create_list_item_levels_single_segment L hcls hsorted hchain, ?_⟩
  rw [create_list_item_levels_single_segment [li_box1, li_box2, li_box3]
    (by decide) (by decide)
    (by norm_num [List.chain'_cons, List.chain'_singleton, li_box1, li_box2,
      li_box3])]
  have h1 : ¬ ((10 : ℚ) + 10 < 10) := by norm_num
  have h2 : ((10 : ℚ) + 10 < 25) := by norm_num
  norm_num [li_box1, li_box2, li_box3, segment_level, List.range_succ, h1, h2]

/-- Witness for C9: the concrete three-item segment. -/
theorem C9_list_item_levels_witness :
    create_list_item_levels [li_box1, li_box2, li_box3] =
      [(0, 1), (1, 1), (2, 2)] :=
  (C9_list_item_levels [li_box1] (by decide) (by decide)
    (by norm_num [List.chain'_singleton])).2

/-- C9 counterexample: two list items of one segment whose left edges
differ by exactly 10 points.  The claim ("at least 10 units") requires the
second item to get level 2; the code (`bbox.x0 > prev_bbox.x0 + 10`) keeps
it at level 1. -/
theorem C9_counterexample :
    create_list_item_levels [li_box_left, li_box_right] = [(0, 1), (1, 1)]
    ∧ li_box_right.x0 - li_box_left.x0 = 10
    ∧ level_lookup (create_list_item_levels [li_box_left, li_box_right]) 1 =
        some 1
    ∧ some 1 ≠ (some 2 : Option ℕ) := by
  have hval : create_list_item_levels [li_box_left, li_box_right] =
      [(0, 1), (1, 1)] := by
    rw [create_list_item_levels_single_segment [li_box_left, li_box_right]
      (by decide) (by decide)
      (by norm_num [List.chain'_cons, List.chain'_singleton, li_box_left,
        li_box_right])]
    have h1 : ¬ ((0 : ℚ) + 10 < 10) := by norm_num
    norm_num [li_box_left, li_box_right, segment_level, List.range_succ, h1]
  refine ⟨hval, by norm_num [li_box_left, li_box_right], ?_, by decide⟩
  rw [hval]
  decide

theorem seg_step_elems
    (st : List (List (ℕ × LayoutBox)) × List (ℕ × LayoutBox))
    (q p : ℕ × LayoutBox) :
    (p ∈ (seg_step st q).1.flatten ∨ p ∈ (seg_step st q).2) ↔
      (p ∈ st.1.flatten ∨ p ∈ st.2 ∨
        (p = q ∧ q.2.boxclass = "list-item")) := by
  unfold seg_step
  by_cases hq : q.2.boxclass = "list-item"
  · rw [if_neg (by simp [hq])]
    split
    · simp only [List.mem_append, List.mem_singleton, hq, and_true]
    · split
      · simp only [List.flatten_append, List.flatten_cons, List.flatten_nil,
          List.append_nil, List.mem_append, List.mem_singleton, hq, and_true]
        tauto
      · simp only [List.mem_append, List.mem_singleton, hq, and_true]
  · rw [if_pos (by simp [hq])]
    split
    · rename_i hemp
      rw [List.isEmpty_iff] at hemp
      simp [hq, hemp]
    · simp only [List.flatten_append, List.flatten_cons, List.flatten_nil,
        List.append_nil, List.mem_append, List.not_mem_nil, or_false, hq,
        and_false, false_or]

theorem seg_fold_elems : ∀ (el : List (ℕ × LayoutBox))
    (st : List (List (ℕ × LayoutBox)) × List (ℕ × LayoutBox))
    (p : ℕ × LayoutBox),
    (p ∈ (el.foldl seg_step st).1.flatten ∨ p ∈ (el.foldl seg_step st).2) ↔
      (p ∈ st.1.flatten ∨ p ∈ st.2 ∨
        (p ∈ el ∧ p.2.boxclass = "list-item")) := by
  intro el
  induction el with
  | nil => intro st p; simp
  | cons q t ih =>
    intro st p
    rw [List.foldl_cons]
    rw [ih (seg_step st q) p]
    have hstep := seg_step_elems st q p
    constructor
    · rintro (h | h | ⟨hpt, hcl⟩)
      · rcases hstep.mp (Or.inl h) with h1 | h1 | ⟨rfl, hc⟩
        · exact Or.inl h1
        · exact Or.inr (Or.inl h1)
        · exact Or.inr (Or.inr ⟨by simp, hc⟩)
      · rcases hstep.mp (Or.inr h) with h1 | h1 | ⟨rfl, hc⟩
        · exact Or.inl h1
        · exact Or.inr (Or.inl h1)
        · exact Or.inr (Or.inr ⟨by simp, hc⟩)
      · exact Or.inr (Or.inr ⟨by simp [hpt], hcl⟩)
    · rintro (h | h | ⟨hpq, hcl⟩)
      · rcases hstep.mpr (Or.inl h) with h1 | h1
        · exact Or.inl h1
        · exact Or.inr (Or.inl h1)
      · rcases hstep.mpr (Or.inr (Or.inl h)) with h1 | h1
        · exact Or.inl h1
        · exact Or.inr (Or.inl h1)
      · rcases List.mem_cons.mp hpq with rfl | hpt
        · rcases hstep.mpr (Or.inr (Or.inr ⟨rfl, hcl⟩)) with h1 | h1
          · exact Or.inl h1
          · exact Or.inr (Or.inl h1)
        · exact Or.inr (Or.inr ⟨hpt, hcl⟩)

theorem create_segments_elems (L : List LayoutBox) (p : ℕ × LayoutBox) :
    p ∈ (create_segments L).flatten ↔
      (p ∈ L.enum ∧ p.2.boxclass = "list-item") := by
  simp only [create_segments]
  have h := seg_fold_elems L.enum ([], []) p
  split
  · rename_i hemp
    constructor
    · intro hp
      have := h.mp (Or.inl hp)
      simpa using this
    · intro hp
      rcases h.mpr (Or.inr (Or.inr hp)) with h1 | h1
      · exact h1
      · rw [List.isEmpty_iff] at hemp
        rw [hemp] at h1
        simp at h1
  · constructor
    · intro hp
      rw [List.flatten_append] at hp
      rcases List.mem_append.mp hp with h1 | h1
      · have := h.mp (Or.inl h1)
        simpa using this
      · have h2 : p ∈ (List.foldl seg_step ([], []) L.enum).2 := by
          simpa using h1
        have := h.mp (Or.inr h2)
        simpa using this
    · intro hp
      rw [List.flatten_append]
      rcases h.mpr (Or.inr (Or.inr hp)) with h1 | h1
      · exact List.mem_append.mpr (Or.inl h1)
      · exact List.mem_append.mpr (Or.inr (by simpa using h1))

theorem level_fold_pairs : ∀ (ps : List (ℕ × LayoutBox))
    (acc : List (ℕ × LayoutBox × ℕ)) (pb : LayoutBox) (pl : ℕ),
    ((ps.foldl level_step (acc, pb, pl)).1).map (fun t => (t.1, t.2.1)) =
      acc.map (fun t => (t.1, t.2.1)) ++ ps := by
  intro ps
  induction ps with
  | nil => intro acc pb pl; simp
  | cons q t ih =>
    intro acc pb pl
    simp only [List.foldl_cons, level_step]
    by_cases hgap : pb.x0 + 10 < q.2.x0
    · rw [if_pos (by exact decide_eq_true hgap)]
      rw [ih]
      simp
    · rw [if_neg (by simpa using hgap)]
      rw [ih]
      simp

theorem level_items_pairs (s : List (ℕ × LayoutBox)) :
    (level_items s).map (fun t => (t.1, t.2.1)) =
      List.insertionSort (fun a b : ℕ × LayoutBox => a.2.x0 ≤ b.2.x0) s := by
  unfold level_items
  split
  · rename_i heq
    simp [heq]
  · rename_i q rest heq
    rw [level_fold_pairs rest [(q.1, q.2, 1)] q.2 1]
    rw [heq]
    simp

theorem level_fold_min : ∀ (ps : List (ℕ × LayoutBox))
    (acc : List (ℕ × LayoutBox × ℕ)) (pb : LayoutBox) (pl : ℕ),
    (∀ t ∈ acc, 1 ≤ t.2.2) → 1 ≤ pl →
    ∀ t ∈ (ps.foldl level_step (acc, pb, pl)).1, 1 ≤ t.2.2 := by
  intro ps
  induction ps with
  | nil =>
    intro acc pb pl hacc _
    simpa using hacc
  | cons q t ih =>
    intro acc pb pl hacc hpl
    simp only [List.foldl_cons, level_step]
    by_cases hgap : pb.x0 + 10 < q.2.x0
    · rw [if_pos (by exact decide_eq_true hgap)]
      apply ih
      · intro x hx
        rcases List.mem_append.mp hx with h | h
        · exact hacc x h
        · simp at h
          rw [h]
          show 1 ≤ pl + 1
          omega
      · omega
    · rw [if_neg (by simpa using hgap)]
      apply ih
      · intro x hx
        rcases List.mem_append.mp hx with h | h
        · exact hacc x h
        · simp at h
          rw [h]
          exact hpl
      · omega

theorem level_items_min (s : List (ℕ × LayoutBox)) :
    ∀ t ∈ level_items s, 1 ≤ t.2.2 := by
  unfold level_items
  split
  · simp
  · rename_i q rest heq
    exact level_fold_min rest [(q.1, q.2, 1)] q.2 1 (by simp) (by omega)

theorem dict_fold_mem : ∀ (segs : List (List (ℕ × LayoutBox)))
    (d : List (ℕ × ℕ)) (x : ℕ × ℕ),
    x ∈ segs.foldl (fun d s => if s.isEmpty then d
      else d ++ (level_items s).map (fun t => (t.1, t.2.2))) d ↔
    (x ∈ d ∨ ∃ s ∈ segs, x ∈ (level_items s).map (fun t => (t.1, t.2.2))) := by
  intro segs
  induction segs with
  | nil => intro d x; simp
  | cons s t ih =>
    intro d x
    rw [List.foldl_cons]
    by_cases hs : s.isEmpty
    · rw [if_pos hs]
      rw [ih]
      have hlev : level_items s = [] := by
        rw [List.isEmpty_iff] at hs
        rw [hs]
        rfl
      constructor
      · rintro (h | ⟨s2, hs2, hx⟩)
        · exact Or.inl h
        · exact Or.inr ⟨s2, by simp [hs2], hx⟩
      · rintro (h | ⟨s2, hs2, hx⟩)
        · exact Or.inl h
        · rcases List.mem_cons.mp hs2 with rfl | h2
          · rw [hlev] at hx
            simp at hx
          · exact Or.inr ⟨s2, h2, hx⟩
    · rw [if_neg hs]
      rw [ih]
      constructor
      · rintro (h | ⟨s2, hs2, hx⟩)
        · rcases List.mem_append.mp h with h1 | h1
          · exact Or.inl h1
          · exact Or.inr ⟨s, by simp, h1⟩
        · exact Or.inr ⟨s2, by simp [hs2], hx⟩
      · rintro (h | ⟨s2, hs2, hx⟩)
        · exact Or.inl (List.mem_append.mpr (Or.inl h))
        · rcases List.mem_cons.mp hs2 with rfl | h2
          · exact Or.inl (List.mem_append.mpr (Or.inr hx))
          · exact Or.inr ⟨s2, h2, hx⟩

theorem create_list_item_levels_mem (L : List LayoutBox) (x : ℕ × ℕ)
    (hx : x ∈ create_list_item_levels L) :
    ∃ b, (x.1, b) ∈ L.enum ∧ b.boxclass = "list-item" ∧ 1 ≤ x.2 := by
  unfold create_list_item_levels at hx
  rcases (dict_fold_mem (create_segments L) [] x).mp hx with h | ⟨s, hs, hxs⟩
  · simp at h
  · rcases List.mem_map.mp hxs with ⟨t, ht, hteq⟩
    subst hteq
    have h1 : (t.1, t.2.1) ∈ (level_items s).map (fun t => (t.1, t.2.1)) :=
      List.mem_map_of_mem _ ht
    rw [level_items_pairs s] at h1
    have h2 : (t.1, t.2.1) ∈ s :=
      ((List.perm_insertionSort _ s).mem_iff).mp h1
    have h3 : (t.1, t.2.1) ∈ (create_segments L).flatten :=
      List.mem_flatten.mpr ⟨s, hs, h2⟩
    have h4 := (create_segments_elems L (t.1, t.2.1)).mp h3
    exact ⟨t.2.1, h4.1, h4.2, level_items_min s t ht⟩

theorem create_list_item_levels_covers (L : List LayoutBox) (i : ℕ)
    (b : LayoutBox) (hb : (i, b) ∈ L.enum)
    (hcls : b.boxclass = "list-item") :
    ∃ lvl, (i, lvl) ∈ create_list_item_levels L := by
  have h3 : (i, b) ∈ (create_segments L).flatten :=
    (create_segments_elems L (i, b)).mpr ⟨hb, hcls⟩
  rcases List.mem_flatten.mp h3 with ⟨s, hs, hmem⟩
  have h1 : (i, b) ∈
      List.insertionSort (fun a b : ℕ × LayoutBox => a.2.x0 ≤ b.2.x0) s :=
    ((List.perm_insertionSort _ s).mem_iff).mpr hmem
  rw [← level_items_pairs s] at h1
  rcases List.mem_map.mp h1 with ⟨t, ht, hteq⟩
  refine ⟨t.2.2, ?_⟩
  unfold create_list_item_levels
  apply (dict_fold_mem (create_segments L) [] (i, t.2.2)).mpr
  refine Or.inr ⟨s, hs, List.mem_map.mpr ⟨t, ht, ?_⟩⟩
  have hfst : t.1 = i := congrArg Prod.fst hteq
  rw [hfst]

/-- C10: the level dictionary built by `create_list_item_levels` has as its
key set exactly the indices of `"list-item"` boxes, and every stored level
is at least 1 — so the serializers' `list_item_levels[i]` lookups on
list-item boxes cannot fail. -/
theorem C10_level_map_total (L : List LayoutBox) (i : ℕ) :
    ((level_lookup (create_list_item_levels L) i).isSome = true ↔
      ∃ b, L[i]? = some b ∧ b.boxclass = "list-item")
    ∧ (∀ lvl, level_lookup (create_list_item_levels L) i = some lvl →
        1 ≤ lvl) := by
  constructor
  · constructor
    · intro h
      have h2 : (List.find? (fun p => decide (p.1 = i))
          (create_list_item_levels L)).isSome = true := by
        unfold level_lookup at h
        rcases hf : List.find? (fun p => decide (p.1 = i))
            (create_list_item_levels L) with _ | x
        · rw [hf] at h
          simp at h
        · simp [hf]
      rcases List.find?_isSome.mp h2 with ⟨x, hx, hpx⟩
      have hi : x.1 = i := by simpa using hpx
      rcases create_list_item_levels_mem L x hx with ⟨b, hb, hcls, _⟩
      refine ⟨b, ?_, hcls⟩
      rw [← hi]
      exact List.mem_enum_iff_getElem?.mp hb
    · rintro ⟨b, hb, hcls⟩
      have hmem : ((i, b) : ℕ × LayoutBox) ∈ L.enum :=
        List.mem_enum_iff_getElem?.mpr hb
      rcases create_list_item_levels_covers L i b hmem hcls with ⟨lvl, hlvl⟩
      have h2 : (List.find? (fun p => decide (p.1 = i))
          (create_list_item_levels L)).isSome = true :=
        List.find?_isSome.mpr ⟨(i, lvl), hlvl, by simp⟩
      unfold level_lookup
      rcases hf : List.find? (fun p => decide (p.1 = i))
          (create_list_item_levels L) with _ | x
      · rw [hf] at h2
        simp at h2
      · simp [hf]
  · intro lvl hl
    unfold level_lookup at hl
    rcases Option.map_eq_some'.mp hl with ⟨x, hfind, hx2⟩
    have hxmem := List.mem_of_find?_eq_some hfind
    rcases create_list_item_levels_mem L x hxmem with ⟨b, _, _, hmin⟩
    rw [← hx2]
    exact hmin

theorem is_contained_area (u r : LBox) (hu : u.x0 < u.x1 ∧ u.y0 < u.y1)
    (hr : r.x0 < r.x1 ∧ r.y0 < r.y1) (hc : is_contained u r = true) :
    (u.x0 = r.x0 ∧ u.y0 = r.y0 ∧ u.x1 = r.x1 ∧ u.y1 = r.y1) ∨
      box_area u < box_area r := by
  simp only [is_contained, Bool.and_eq_true, decide_eq_true_eq] at hc
  obtain ⟨⟨⟨⟨h1, h2⟩, h3⟩, h4⟩, _⟩ := hc
  by_cases hw : u.x1 - u.x0 = r.x1 - r.x0
  · by_cases hh : u.y1 - u.y0 = r.y1 - r.y0
    · left
      refine ⟨by linarith, by linarith, by linarith, by linarith⟩
    · right
      have hhlt : u.y1 - u.y0 < r.y1 - r.y0 := by
        rcases lt_or_eq_of_le (by linarith : u.y1 - u.y0 ≤ r.y1 - r.y0) with
          h | h
        · exact h
        · exact absurd h hh
      unfold box_area
      nlinarith [hu.1, hu.2, hr.1, hr.2]
  · right
    have hwlt : u.x1 - u.x0 < r.x1 - r.x0 := by
      rcases lt_or_eq_of_le (by linarith : u.x1 - u.x0 ≤ r.x1 - r.x0) with
        h | h
      · exact h
      · exact absurd h hw
    have hhle : u.y1 - u.y0 ≤ r.y1 - r.y0 := by linarith
    unfold box_area
    nlinarith [hu.1, hu.2, hr.1, hr.2]

theorem is_contained_refl_false (r : LBox) : is_contained r r = false := by
  simp [is_contained]

theorem filter_fold_invariant :
    ∀ (pending : List LBox) (acc : List LBox),
      (∀ b ∈ pending, b.x0 < b.x1 ∧ b.y0 < b.y1) →
      (∀ b ∈ acc, b.x0 < b.x1 ∧ b.y0 < b.y1) →
      pending.Pairwise (fun a b => box_area b ≤ box_area a) →
      (∀ a ∈ acc, ∀ p ∈ pending, box_area p ≤ box_area a) →
      (∀ u ∈ acc, ∀ v ∈ acc, is_contained u v = false) →
      ∀ u ∈ pending.foldl (fun result r =>
          if result.any (fun other => is_contained r other) then result
          else result ++ [r]) acc,
        ∀ v ∈ pending.foldl (fun result r =>
          if result.any (fun other => is_contained r other) then result
          else result ++ [r]) acc, is_contained u v = false := by
  intro pending
  induction pending with
  | nil =>
    intro acc _ _ _ _ hinv
    simpa using hinv
  | cons r t ih =>
    intro acc hndp hnda hpair hcross hinv
    rw [List.foldl_cons]
    by_cases hany : acc.any (fun other => is_contained r other) = true
    · rw [if_pos hany]
      exact ih acc (fun b hb => hndp b (by simp [hb])) hnda
        (List.pairwise_cons.mp hpair).2
        (fun a ha p hp => hcross a ha p (by simp [hp])) hinv
    · rw [if_neg hany]
      have hanyf : ∀ o ∈ acc, is_contained r o = false := by
        intro o ho
        rcases Bool.eq_false_or_eq_true (is_contained r o) with h | h
        · exact absurd (List.any_eq_true.mpr ⟨o, ho, h⟩) hany
        · exact h
      have hndr : r.x0 < r.x1 ∧ r.y0 < r.y1 := hndp r (by simp)
      apply ih (acc ++ [r]) (fun b hb => hndp b (by simp [hb]))
      · intro b hb
        rcases List.mem_append.mp hb with h | h
        · exact hnda b h
        · rw [List.mem_singleton.mp h]
          exact hndr
      · exact (List.pairwise_cons.mp hpair).2
      · intro a ha p hp
        rcases List.mem_append.mp ha with h | h
        · exact hcross a h p (by simp [hp])
        · rw [List.mem_singleton.mp h]
          exact (List.pairwise_cons.mp hpair).1 p hp
      · intro u hu v hv
        rcases List.mem_append.mp hu with hu1 | hu1 <;>
          rcases List.mem_append.mp hv with hv1 | hv1
        · exact hinv u hu1 v hv1
        · rw [List.mem_singleton.mp hv1]
          rcases Bool.eq_false_or_eq_true (is_contained u r) with h | h
          · exfalso
            rcases is_contained_area u r (hnda u hu1) hndr h with
              hcoords | harea
            · have hcr : is_contained r u = true := by
                simp only [is_contained, Bool.and_eq_true, decide_eq_true_eq]
                have hne : u ≠ r := by
                  simp only [is_contained, Bool.and_eq_true,
                    decide_eq_true_eq] at h
                  exact h.2
                refine ⟨⟨⟨⟨by linarith [hcoords.1], by linarith [hcoords.2.1]⟩,
                  by linarith [hcoords.2.2.1]⟩, by linarith [hcoords.2.2.2]⟩,
                  fun hru => hne hru.symm⟩
              exact absurd hcr (by simp [hanyf u hu1])
            · have : box_area r ≤ box_area u :=
                hcross u hu1 r (by simp)
              linarith
          · exact h
        · rw [List.mem_singleton.mp hu1]
          exact hanyf v hv1
        · rw [List.mem_singleton.mp hu1, List.mem_singleton.mp hv1]
          exact is_contained_refl_false r

/-- C6 (amended): for every list of boxes with positive width and height,
no box kept by `filter_contained` is geometrically contained in another
distinct kept box.  (Degenerate boxes can defeat the area-descending scan;
see the counterexample.) -/
theorem C6_containment_invariant (boxes : List LBox)
    (hnd : ∀ b ∈ boxes, b.x0 < b.x1 ∧ b.y0 < b.y1) :
    ∀ u ∈ filter_contained boxes, ∀ v ∈ filter_contained boxes,
      is_contained u v = false := by
  unfold filter_contained
  apply filter_fold_invariant
  · intro b hb
    exact hnd b (((List.perm_insertionSort _ boxes).mem_iff).mp hb)
  · simp
  · haveI : IsTotal LBox (fun a b => box_area b ≤ box_area a) :=
      ⟨fun a b => le_total _ _⟩
    haveI : IsTrans LBox (fun a b => box_area b ≤ box_area a) :=
      ⟨fun a b c h1 h2 => le_trans h2 h1⟩
    exact List.sorted_insertionSort _ boxes
  · simp
  · simp

/-- Witness for C6 at a concrete one-box input. -/
theorem C6_containment_invariant_witness :
    is_contained box_big box_big = false :=
  C6_containment_invariant [box_big] (by decide) box_big (by decide)
    box_big (by decide)

/-- C6 counterexample: two degenerate (zero-width) boxes, the first
contained in the second; they tie at area 0, both survive the filter, and
the result contains a box strictly contained in another distinct one. -/
theorem C6_counterexample :
    filter_contained [deg_box1, deg_box2] = [deg_box1, deg_box2]
    ∧ is_contained deg_box1 deg_box2 = true
    ∧ deg_box1 ≠ deg_box2 := by
  refine ⟨?_, by decide, by decide⟩
  have h0 : box_area deg_box1 ≤ box_area deg_box2 := by
    norm_num [box_area, deg_box1, deg_box2]
  have h1 : box_area deg_box2 ≤ box_area deg_box1 := by
    norm_num [box_area, deg_box1, deg_box2]
  simp only [filter_contained, List.insertionSort, List.orderedInsert]
  rw [if_pos h1]
  simp only [List.foldl_cons, List.foldl_nil]
  norm_num [is_contained, deg_box1, deg_box2]

/-- Witness for C10 at a concrete one-item layout. -/
theorem C10_level_map_total_witness :
    (level_lookup (create_list_item_levels [li_box1]) 0).isSome = true ∧
    (1 : ℕ) ≤ 1 :=
  ⟨(C10_level_map_total [li_box1] 0).1.mpr ⟨li_box1, by decide, by decide⟩,
   (C10_level_map_total [li_box1] 0).2 1 (by decide)⟩

/-! ### Reading order (C3): permutation of the box multiset -/

/-- Splitting a filter along a pointwise exclusive cover of its predicate. -/
theorem filter_split {α : Type} (l : List α) (f g h : α → Bool)
    (H : ∀ b ∈ l, f b = (g b || h b) ∧ ¬(g b = true ∧ h b = true)) :
    (l.filter f).Perm (l.filter g ++ l.filter h) := by
  induction l with
  | nil => simp
  | cons a t ih =>
    have Ha := H a (List.mem_cons_self a t)
    have iht := ih (fun b hb => H b (List.mem_cons_of_mem a hb))
    rcases Bool.eq_false_or_eq_true (g a) with hg | hg
    · have hh : h a = false := by
        rcases Bool.eq_false_or_eq_true (h a) with hh | hh
        · exact absurd ⟨hg, hh⟩ Ha.2
        · exact hh
      have hf : f a = true := by rw [Ha.1, hg]; rfl
      rw [List.filter_cons_of_pos hf, List.filter_cons_of_pos hg,
        List.filter_cons_of_neg (by simp [hh])]
      exact iht.cons a
    · rcases Bool.eq_false_or_eq_true (h a) with hh | hh
      · have hf : f a = true := by rw [Ha.1, hg, hh]; rfl
        rw [List.filter_cons_of_pos hf, List.filter_cons_of_neg (by simp [hg]),
          List.filter_cons_of_pos hh]
        exact (iht.cons a).trans List.perm_middle.symm
      · have hf : f a = false := by rw [Ha.1, hg, hh]; rfl
        rw [List.filter_cons_of_neg (by simp [hf]),
          List.filter_cons_of_neg (by simp [hg]),
          List.filter_cons_of_neg (by simp [hh])]
        exact iht

/-- The defaulted minimum of a rational list bounds every member below. -/
theorem min?_getD_le {l : List ℚ} {x : ℚ} (hx : x ∈ l) (d : ℚ) :
    (l.min?).getD d ≤ x := by
  cases hm : l.min? with
  | none =>
    rw [List.min?_eq_none_iff.mp hm] at hx
    exact absurd hx (List.not_mem_nil x)
  | some m =>
    haveI : Std.Antisymm (fun (a b : ℚ) => a ≤ b) :=
      ⟨fun h1 h2 => le_antisymm h1 h2⟩
    exact ((List.min?_eq_some_iff (fun a => le_refl a) min_choice
      (fun a b c => le_min_iff)).mp hm).2 x hx

/-- The defaulted maximum of a rational list bounds every member above. -/
theorem le_max?_getD {l : List ℚ} {x : ℚ} (hx : x ∈ l) (d : ℚ) :
    x ≤ (l.max?).getD d := by
  cases hm : l.max? with
  | none =>
    rw [List.max?_eq_none_iff.mp hm] at hx
    exact absurd hx (List.not_mem_nil x)
  | some m =>
    haveI : Std.Antisymm (fun (a b : ℚ) => a ≤ b) :=
      ⟨fun h1 h2 => le_antisymm h1 h2⟩
    exact ((List.max?_eq_some_iff (fun a => le_refl a) max_choice
      (fun a b c => max_le_iff)).mp hm).2 x hx

/-- On a non-empty rational list, the defaulted maximum is attained. -/
theorem max?_getD_mem {l : List ℚ} (h : l ≠ []) (d : ℚ) :
    (l.max?).getD d ∈ l := by
  cases hm : l.max? with
  | none => exact absurd (List.max?_eq_none_iff.mp hm) h
  | some m =>
    haveI : Std.Antisymm (fun (a b : ℚ) => a ≤ b) :=
      ⟨fun h1 h2 => le_antisymm h1 h2⟩
    exact ((List.max?_eq_some_iff (fun a => le_refl a) max_choice
      (fun a b c => max_le_iff)).mp hm).1

/-- The stripe-popping loop on an empty box list yields no stripes. -/
theorem stripes_of_nil_boxes : ∀ ys : List ℚ, stripes_of ys [] = [] := by
  intro ys
  induction ys with
  | nil => rfl
  | cons y t ih =>
    simp only [stripes_of, List.takeWhile_nil, List.dropWhile_nil,
      List.isEmpty_nil, if_true]
    exact ih

/-- If some divider value bounds every box's bottom, the stripes concatenate
back to the whole (sorted) box list, in order. -/
theorem stripes_of_flatten : ∀ (ys : List ℚ) (bs : List LBox),
    (∃ y ∈ ys, ∀ b ∈ bs, b.y1 ≤ y) → (stripes_of ys bs).flatten = bs := by
  intro ys
  induction ys with
  | nil =>
    rintro bs ⟨y, hy, -⟩
    exact absurd hy (List.not_mem_nil y)
  | cons y t ih =>
    rintro bs ⟨y', hy', hbound⟩
    rcases List.mem_cons.mp hy' with rfl | hy'
    · have htake : bs.takeWhile (fun b => decide (b.y1 ≤ y')) = bs :=
        List.takeWhile_eq_self_iff.mpr (fun b hb => decide_eq_true (hbound b hb))
      have hdrop : bs.dropWhile (fun b => decide (b.y1 ≤ y')) = [] :=
        List.dropWhile_eq_nil_iff.mpr (fun b hb => decide_eq_true (hbound b hb))
      simp only [stripes_of, htake, hdrop]
      rcases Bool.eq_false_or_eq_true bs.isEmpty with hbs | hbs
      · rw [if_pos hbs, List.isEmpty_iff.mp hbs, stripes_of_nil_boxes]
        rfl
      · rw [if_neg (by simp [hbs]), stripes_of_nil_boxes]
        simp
    · have hrest : ∀ b ∈ bs.dropWhile (fun b => decide (b.y1 ≤ y)), b.y1 ≤ y' :=
        fun b hb => hbound b ((List.dropWhile_sublist _).subset hb)
      have ihr := ih (bs.dropWhile (fun b => decide (b.y1 ≤ y))) ⟨y', hy', hrest⟩
      simp only [stripes_of]
      rcases Bool.eq_false_or_eq_true
          (bs.takeWhile (fun b => decide (b.y1 ≤ y))).isEmpty with htk | htk
      · rw [if_pos htk, ihr]
        conv_rhs => rw [← List.takeWhile_append_dropWhile
          (fun b => decide (b.y1 ≤ y)) bs]
        rw [List.isEmpty_iff.mp htk, List.nil_append]
      · rw [if_neg (by simp [htk])]
        simp only [List.flatten_cons, ihr]
        exact List.takeWhile_append_dropWhile _ bs

/-- Every box of every stripe comes from the input box list. -/
theorem stripes_of_mem : ∀ (ys : List ℚ) (bs s : List LBox),
    s ∈ stripes_of ys bs → ∀ b ∈ s, b ∈ bs := by
  intro ys
  induction ys with
  | nil =>
    intro bs s hs
    exact absurd hs (List.not_mem_nil s)
  | cons y t ih =>
    intro bs s hs b hb
    simp only [stripes_of] at hs
    rcases Bool.eq_false_or_eq_true
        (bs.takeWhile (fun b => decide (b.y1 ≤ y))).isEmpty with htk | htk
    · rw [if_pos htk] at hs
      exact (List.dropWhile_sublist _).subset (ih _ s hs b hb)
    · rw [if_neg (by simp [htk])] at hs
      rcases List.mem_cons.mp hs with rfl | hs
      · exact (List.takeWhile_sublist _).subset hb
      · exact (List.dropWhile_sublist _).subset (ih _ s hs b hb)

/-- The greedy column fold preserves the box multiset: flattening the closed
result is a permutation of the already-accumulated boxes plus the pending
ones, provided the closing function is itself a permutation. -/
theorem column_fold_flatten (gap : ℚ) (close : List LBox → List LBox)
    (hclose : ∀ l, (close l).Perm l) :
    ∀ (pending : List LBox) (cols : List (List LBox)) (cur : List LBox),
      (((pending.foldl (column_step gap close) (cols, cur)).1 ++
        [close (pending.foldl (column_step gap close) (cols, cur)).2]).flatten).Perm
      (cols.flatten ++ (cur ++ pending)) := by
  intro pending
  induction pending with
  | nil =>
    intro cols cur
    simp only [List.foldl_nil, List.flatten_append, List.flatten_cons,
      List.flatten_nil, List.append_nil]
    exact List.Perm.append_left _ (hclose cur)
  | cons b t ih =>
    intro cols cur
    rw [List.foldl_cons]
    rcases Bool.eq_false_or_eq_true
        (decide (gap < b.x0 - ((cur.map (fun bb => bb.x1)).max?).getD 0)) with hb | hb
    · rw [show column_step gap close (cols, cur) b = (cols ++ [close cur], [b]) from by
        simp only [column_step]
        rw [if_pos hb]]
      refine (ih _ _).trans ?_
      simp only [List.flatten_append, List.flatten_cons, List.flatten_nil,
        List.append_nil, List.append_assoc, List.singleton_append]
      exact List.Perm.append_left _ ((hclose cur).append_right (b :: t))
    · rw [show column_step gap close (cols, cur) b = (cols, cur ++ [b]) from by
        simp only [column_step]
        rw [if_neg (by simp [hb])]]
      refine (ih _ _).trans ?_
      rw [List.append_assoc, List.singleton_append]

/-- `cluster_substripe` only reorders its input boxes. -/
theorem cluster_substripe_flatten_perm (l : List LBox) :
    ((cluster_substripe l).flatten).Perm l := by
  simp only [cluster_substripe]
  split
  · rename_i heq
    have hsp := List.perm_insertionSort (fun a b : LBox => a.x0 ≤ b.x0) l
    rw [heq] at hsp
    simp [hsp.symm.eq_nil]
  · rename_i first rest heq
    have hsp := List.perm_insertionSort (fun a b : LBox => a.x0 ≤ b.x0) l
    rw [heq] at hsp
    refine (column_fold_flatten 1
      (List.insertionSort (fun a b : LBox => a.y0 ≤ b.y0))
      (fun x => List.perm_insertionSort _ x) rest [] [first]).trans ?_
    simpa using hsp

/-- Unfolding `outside_bbox` into its four disjuncts at the `Prop` level. -/
theorem outside_bbox_eq_true_iff (bbox cell : RectQ) :
    outside_bbox bbox cell = true ↔
      cell.x1 ≤ bbox.x0 ∨ bbox.x1 ≤ cell.x0 ∨ cell.y1 ≤ bbox.y0 ∨
        bbox.y1 ≤ cell.y0 := by
  unfold outside_bbox
  rw [Bool.or_eq_true_iff, Bool.or_eq_true_iff, Bool.or_eq_true_iff,
    decide_eq_true_eq, decide_eq_true_eq, decide_eq_true_eq, decide_eq_true_eq]
  tauto

/-- A solitary box of a stripe is vertically disjoint from every other box
of the stripe (given nondegenerate boxes inside the stripe's x-bounds). -/
theorem solitary_disjoint (stripe : List LBox) (x0 x1 : ℚ)
    (hx0 : ∀ b ∈ stripe, x0 ≤ b.x0) (hx1 : ∀ b ∈ stripe, b.x1 ≤ x1)
    (hnd : ∀ b ∈ stripe, b.x0 < b.x1 ∧ b.y0 < b.y1)
    (s : LBox) (hsol : is_solitary stripe x0 x1 s = true)
    (b : LBox) (hb : b ∈ stripe) (hne : b ≠ s) :
    b.y1 ≤ s.y0 ∨ s.y1 ≤ b.y0 := by
  have h := List.all_eq_true.mp hsol b hb
  rcases Bool.or_eq_true_iff.mp h with h1 | h2
  · exact absurd (of_decide_eq_true h1) hne
  · have h2' := (outside_bbox_eq_true_iff _ _).mp h2
    simp only [LBox.rect, expanded_box] at h2'
    have hndb := hnd b hb
    rcases h2' with h3 | h3 | h3 | h3
    · have := hx1 b hb
      linarith [hndb.1]
    · have := hx0 b hb
      linarith [hndb.1]
    · exact Or.inr h3
    · exact Or.inl h3

/-- The solitary-region loop preserves the box multiset: its flattening is a
permutation of the solitaries plus the non-solitary boxes at or below the
running cursor `s0`. -/
theorem sol_regions_perm (stripe : List LBox) (x0 x1 : ℚ)
    (hx0 : ∀ b ∈ stripe, x0 ≤ b.x0) (hx1 : ∀ b ∈ stripe, b.x1 ≤ x1)
    (hnd : ∀ b ∈ stripe, b.x0 < b.x1 ∧ b.y0 < b.y1) :
    ∀ (sols : List LBox) (s0 : ℚ),
      (∀ s ∈ sols, s ∈ stripe ∧ is_solitary stripe x0 x1 s = true) →
      sols.Pairwise (fun u v => u.y0 ≤ v.y0) →
      (∀ s ∈ sols, s0 ≤ s.y1) →
      (∀ b ∈ stripe, is_solitary stripe x0 x1 b = true → b ∈ sols ∨ b.y1 ≤ s0) →
      ((sol_regions stripe s0 sols).flatten).Perm
        (sols ++ stripe.filter (fun b =>
          !(is_solitary stripe x0 x1 b) && decide (s0 ≤ b.y0))) := by
  intro sols
  induction sols with
  | nil =>
    intro s0 _ _ _ hcover
    have hfeq : stripe.filter (fun b => decide (s0 ≤ b.y0)) =
        stripe.filter (fun b =>
          !(is_solitary stripe x0 x1 b) && decide (s0 ≤ b.y0)) := by
      apply List.filter_congr
      intro b hb
      rcases Bool.eq_false_or_eq_true (is_solitary stripe x0 x1 b) with hp | hp
      · have hle : b.y1 ≤ s0 := by
          rcases hcover b hb hp with hmem | hle
          · exact absurd hmem (List.not_mem_nil b)
          · exact hle
        have hlt := (hnd b hb).2
        have hd : decide (s0 ≤ b.y0) = false := by
          apply decide_eq_false
          intro hc
          linarith
        rw [hd, hp]
        rfl
      · rw [hp]
        rfl
    simp only [sol_regions]
    rcases Bool.eq_false_or_eq_true
        (stripe.filter (fun b => decide (s0 ≤ b.y0))).isEmpty with hemp | hemp
    · rw [if_pos hemp]
      have hnilf : stripe.filter (fun b =>
          !(is_solitary stripe x0 x1 b) && decide (s0 ≤ b.y0)) = [] := by
        rw [← hfeq]
        exact List.isEmpty_iff.mp hemp
      simp [hnilf]
    · rw [if_neg (by simp [hemp])]
      refine (cluster_substripe_flatten_perm _).trans ?_
      rw [hfeq, List.nil_append]
  | cons sol rest ih =>
    intro s0 hsub hsort hs0 hcover
    have hsolS : sol ∈ stripe := (hsub sol (List.mem_cons_self sol rest)).1
    have hsolP : is_solitary stripe x0 x1 sol = true :=
      (hsub sol (List.mem_cons_self sol rest)).2
    have hndsol := hnd sol hsolS
    have hsorthead : ∀ r ∈ rest, sol.y0 ≤ r.y0 :=
      fun r hr => List.rel_of_pairwise_cons hsort hr
    have hbelow : ∀ r ∈ rest, sol.y1 ≤ r.y1 := by
      intro r hr
      by_cases hre : r = sol
      · rw [hre]
      · have hrS : r ∈ stripe := (hsub r (List.mem_cons_of_mem sol hr)).1
        rcases solitary_disjoint stripe x0 x1 hx0 hx1 hnd sol hsolP r hrS hre
            with h | h
        · have h1 := (hnd r hrS).2
          have h2 := hsorthead r hr
          linarith
        · exact le_trans h (le_of_lt (hnd r hrS).2)
    have hcover2 : ∀ b ∈ stripe, is_solitary stripe x0 x1 b = true →
        b ∈ rest ∨ b.y1 ≤ sol.y1 := by
      intro b hb hp
      rcases hcover b hb hp with hmem | hle
      · rcases List.mem_cons.mp hmem with hbe | hbr
        · exact Or.inr (le_of_eq (by rw [hbe]))
        · exact Or.inl hbr
      · exact Or.inr (le_trans hle (hs0 sol (List.mem_cons_self sol rest)))
    have ihr := ih sol.y1
      (fun s hs => hsub s (List.mem_cons_of_mem sol hs))
      (List.Pairwise.of_cons hsort) hbelow hcover2
    have hpoint : ∀ b ∈ stripe,
        (!(is_solitary stripe x0 x1 b) && decide (s0 ≤ b.y0)) =
          ((decide (b.y1 ≤ sol.y0) && decide (s0 ≤ b.y0)) ||
            (!(is_solitary stripe x0 x1 b) && decide (sol.y1 ≤ b.y0))) ∧
        ¬((decide (b.y1 ≤ sol.y0) && decide (s0 ≤ b.y0)) = true ∧
          (!(is_solitary stripe x0 x1 b) && decide (sol.y1 ≤ b.y0)) = true) := by
      intro b hb
      have hndb := hnd b hb
      constructor
      · rcases Bool.eq_false_or_eq_true (is_solitary stripe x0 x1 b) with hp | hp
        · have hng : ¬(b.y1 ≤ sol.y0 ∧ s0 ≤ b.y0) := by
            rcases hcover b hb hp with hmem | hle
            · rcases List.mem_cons.mp hmem with hbe | hbr
              · rintro ⟨hc1, -⟩
                rw [hbe] at hc1
                linarith [hndsol.2]
              · rintro ⟨hc1, -⟩
                have := hsorthead b hbr
                linarith [hndb.2]
            · rintro ⟨-, hc2⟩
              linarith [hndb.2]
          have hgf : (decide (b.y1 ≤ sol.y0) && decide (s0 ≤ b.y0)) = false := by
            rcases le_or_lt b.y1 sol.y0 with hby | hby
            · rw [decide_eq_false (fun hc => hng ⟨hby, hc⟩), Bool.and_false]
            · rw [decide_eq_false (not_le.mpr hby), Bool.false_and]
          rw [hp, hgf]
          rfl
        · have hbne : b ≠ sol := by
            intro hbe
            rw [hbe, hsolP] at hp
            exact Bool.noConfusion hp
          rcases solitary_disjoint stripe x0 x1 hx0 hx1 hnd sol hsolP b hb hbne
              with hc | hc
          · have hd1 : decide (sol.y1 ≤ b.y0) = false := by
              apply decide_eq_false
              intro hc2
              linarith [hndb.2, hndsol.2]
            simp only [hp, decide_eq_true hc, hd1, Bool.not_false,
              Bool.true_and, Bool.and_false, Bool.or_false]
          · have hd0 : decide (s0 ≤ b.y0) = true :=
              decide_eq_true
                (le_trans (hs0 sol (List.mem_cons_self sol rest)) hc)
            simp only [hp, hd0, decide_eq_true hc, Bool.not_false,
              Bool.true_and, Bool.and_true, Bool.or_true]
      · rintro ⟨hg, hh⟩
        simp only [Bool.and_eq_true, decide_eq_true_eq] at hg hh
        linarith [hndb.2, hndsol.2, hg.1, hg.2, hh.2]
    have hsplit := filter_split stripe
      (fun b => !(is_solitary stripe x0 x1 b) && decide (s0 ≤ b.y0))
      (fun b => decide (b.y1 ≤ sol.y0) && decide (s0 ≤ b.y0))
      (fun b => !(is_solitary stripe x0 x1 b) && decide (sol.y1 ≤ b.y0))
      hpoint
    simp only [sol_regions, List.flatten_append, List.flatten_cons]
    refine (List.Perm.append (cluster_substripe_flatten_perm _)
      (List.Perm.append_left [sol] ihr)).trans ?_
    refine List.Perm.trans ?_ (List.Perm.append_left (sol :: rest) hsplit.symm)
    rw [List.singleton_append, List.cons_append]
    refine List.perm_middle.trans ?_
    refine List.Perm.cons sol ?_
    rw [← List.append_assoc, ← List.append_assoc]
    exact List.Perm.append_right _ List.perm_append_comm

/-- Core of `cluster_columns_in_stripe`'s multiset preservation, with the
stripe bounding-box values abstracted. -/
theorem cluster_columns_core (stripe : List LBox) (a c d : ℚ)
    (hx0 : ∀ b ∈ stripe, a ≤ b.x0) (hx1 : ∀ b ∈ stripe, b.x1 ≤ c)
    (hy0 : ∀ b ∈ stripe, d ≤ b.y0)
    (hnd : ∀ b ∈ stripe, b.x0 < b.x1 ∧ b.y0 < b.y1) :
    (((if (stripe.filter (is_solitary stripe a c)).isEmpty then
        cluster_substripe stripe
      else
        sol_regions stripe d
          (List.insertionSort (fun u v => u.y0 ≤ v.y0)
            (stripe.filter (is_solitary stripe a c)))) :
        List (List LBox)).flatten).Perm stripe := by
  rcases Bool.eq_false_or_eq_true (stripe.filter (is_solitary stripe a c)).isEmpty
      with hemp | hemp
  · rw [if_pos hemp]
    exact cluster_substripe_flatten_perm stripe
  · rw [if_neg (by simp [hemp])]
    haveI : IsTotal LBox (fun u v => u.y0 ≤ v.y0) := ⟨fun u v => le_total u.y0 v.y0⟩
    haveI : IsTrans LBox (fun u v => u.y0 ≤ v.y0) :=
      ⟨fun u v w h1 h2 => le_trans h1 h2⟩
    have hperm : (List.insertionSort (fun u v => u.y0 ≤ v.y0)
        (stripe.filter (is_solitary stripe a c))).Perm
        (stripe.filter (is_solitary stripe a c)) :=
      List.perm_insertionSort _ _
    have hsorted := List.sorted_insertionSort (fun u v => u.y0 ≤ v.y0)
      (stripe.filter (is_solitary stripe a c))
    refine (sol_regions_perm stripe a c hx0 hx1 hnd _ d ?_ ?_ ?_ ?_).trans ?_
    · intro s hs
      exact List.mem_filter.mp (hperm.mem_iff.mp hs)
    · exact hsorted
    · intro s hs
      have hmem := List.mem_filter.mp (hperm.mem_iff.mp hs)
      have h1 := hy0 s hmem.1
      have h2 := (hnd s hmem.1).2
      linarith
    · intro b hb hpb
      exact Or.inl (hperm.mem_iff.mpr (List.mem_filter.mpr ⟨hb, hpb⟩))
    · refine (List.Perm.append_right _ hperm).trans ?_
      have hfeq : stripe.filter (fun b => !(is_solitary stripe a c b) &&
          decide (d ≤ b.y0)) =
          stripe.filter (fun b => !(is_solitary stripe a c b)) := by
        apply List.filter_congr
        intro b hb
        rw [decide_eq_true (hy0 b hb), Bool.and_true]
      rw [hfeq]
      exact List.filter_append_perm _ stripe

/-- `cluster_columns_in_stripe` only reorders the stripe's boxes. -/
theorem cluster_columns_flatten_perm (stripe : List LBox)
    (hnd : ∀ b ∈ stripe, b.x0 < b.x1 ∧ b.y0 < b.y1) :
    ((cluster_columns_in_stripe stripe).flatten).Perm stripe := by
  simp only [cluster_columns_in_stripe]
  exact cluster_columns_core stripe _ _ _
    (fun b hb => min?_getD_le (List.mem_map_of_mem _ hb) 0)
    (fun b hb => le_max?_getD (List.mem_map_of_mem _ hb) 0)
    (fun b hb => min?_getD_le (List.mem_map_of_mem _ hb) 0)
    hnd

/-- Both arms of the divider-recording conditional succeed and keep every
accumulated divider value. -/
theorem opt_if_cases {α : Type} (c d : Prop) [Decidable c] [Decidable d]
    (acc : List α) (y x : α) (hx : x ∈ acc) :
    ∃ a2, (if c then some (if d then acc else acc ++ [y]) else some acc)
        = some a2 ∧ x ∈ a2 := by
  by_cases hc : c
  · by_cases hd : d
    · exact ⟨acc, by rw [if_pos hc, if_pos hd], hx⟩
    · exact ⟨acc ++ [y], by rw [if_pos hc, if_neg hd], List.mem_append_left _ hx⟩
  · exact ⟨acc, by rw [if_neg hc], hx⟩

/-- The divider-collection fold of `cluster_stripes` never hits Python's
empty-`min()` `ValueError`: as long as some box attains the joined bottom
(and boxes are nondegenerate within the joined x-range, with a positive
gap), every step returns `some`, and the initial `joined.y1` stays in the
accumulator. -/
theorem div_y_fold_some (boxes sorted_boxes : List LBox) (joined : RectQ)
    (vectors : List RectQ) (g : ℚ) (hg : 0 < g)
    (m : LBox) (hms : m ∈ sorted_boxes) (hmb : m ∈ boxes)
    (hmy : m.y1 = joined.y1)
    (hjx0 : joined.x0 ≤ m.x0) (hjx1 : m.x1 ≤ joined.x1)
    (hmnd : m.x0 < m.x1 ∧ m.y0 < m.y1) :
    ∀ (l : List LBox) (acc : List ℚ), joined.y1 ∈ acc →
      ∃ acc2, List.foldlM (div_y_step boxes sorted_boxes joined vectors g) acc l
          = some acc2 ∧ joined.y1 ∈ acc2 := by
  intro l
  induction l with
  | nil =>
    intro acc hacc
    exact ⟨acc, rfl, hacc⟩
  | cons box t ih =>
    intro acc hacc
    rw [List.foldlM_cons]
    have hstep : ∃ acc1, div_y_step boxes sorted_boxes joined vectors g acc box
        = some acc1 ∧ joined.y1 ∈ acc1 := by
      rcases Bool.eq_false_or_eq_true (decide (joined.y1 ≤ box.y1)) with h1 | h1
      · refine ⟨acc, ?_, hacc⟩
        simp only [div_y_step]
        rw [if_pos h1]
      · have h1' : box.y1 < joined.y1 := lt_of_not_le (of_decide_eq_false h1)
        rcases Bool.eq_false_or_eq_true
            (boxes.any (fun b => rect_intersects (divider box.y1 joined g) b.rect))
            with h2 | h2
        · refine ⟨acc, ?_, hacc⟩
          simp only [div_y_step]
          rw [if_neg (by simp [h1]), if_pos h2]
        · have hmnotint : rect_intersects (divider box.y1 joined g) m.rect
              = false := by
            have := List.any_eq_false.mp h2 m hmb
            rcases Bool.eq_false_or_eq_true
                (rect_intersects (divider box.y1 joined g) m.rect) with hq | hq
            · exact absurd hq this
            · exact hq
          have hge : (divider box.y1 joined g).y1 ≤ m.y0 := by
            show box.y1 + g ≤ m.y0
            by_contra hcon
            push_neg at hcon
            have hint : rect_intersects (divider box.y1 joined g) m.rect
                = true := by
              unfold rect_intersects divider LBox.rect
              dsimp only
              rw [Bool.and_eq_true, decide_eq_true_eq, decide_eq_true_eq]
              constructor
              · rw [max_eq_right hjx0, min_eq_right hjx1]
                exact hmnd.1
              · rw [max_lt_iff, lt_min_iff, lt_min_iff]
                refine ⟨⟨by linarith, ?_⟩, hcon, hmnd.2⟩
                rw [hmy]
                exact h1'
            rw [hmnotint] at hint
            exact Bool.noConfusion hint
          have hmem : m.y0 ∈ ((sorted_boxes.filter (fun b =>
              decide ((divider box.y1 joined g).y1 ≤ b.y0))).map
                (fun b => b.y0)) :=
            List.mem_map_of_mem _ (List.mem_filter.mpr ⟨hms, decide_eq_true hge⟩)
          obtain ⟨ylow, hylow⟩ : ∃ yv, ((sorted_boxes.filter (fun b =>
              decide ((divider box.y1 joined g).y1 ≤ b.y0))).map
                (fun b => b.y0)).min? = some yv := by
            cases hmin : ((sorted_boxes.filter (fun b =>
                decide ((divider box.y1 joined g).y1 ≤ b.y0))).map
                  (fun b => b.y0)).min? with
            | none =>
              rw [List.min?_eq_none_iff.mp hmin] at hmem
              exact absurd hmem (List.not_mem_nil _)
            | some yv => exact ⟨yv, rfl⟩
          obtain ⟨acc1, hacc1, hmem1⟩ := opt_if_cases
            ((vectors.filter (fun vr =>
              rect_intersects ⟨(divider box.y1 joined g).x0,
                (divider box.y1 joined g).y0,
                (divider box.y1 joined g).x1, ylow⟩ vr &&
              decide (vr.y0 ≤ (divider box.y1 joined g).y0) &&
              decide (ylow ≤ vr.y1))).length ≤ 1)
            (ylow ∈ acc) acc ylow joined.y1 hacc
          refine ⟨acc1, ?_, hmem1⟩
          simp only [div_y_step]
          rw [if_neg (by simp [h1]), if_neg (by simp [h2]), hylow]
          exact hacc1
    obtain ⟨acc1, hstep1, hmem1⟩ := hstep
    rw [hstep1]
    exact ih acc1 hmem1

/-- `cluster_stripes` succeeds (no `ValueError`) and only reorders its boxes,
provided the boxes are nondegenerate, lie within the joined rectangle's
x-range, have bottoms at most `joined.y1` with at least one attaining it,
and the gap is positive. -/
theorem cluster_stripes_result (boxes : List LBox) (joined : RectQ)
    (vectors : List RectQ) (g : ℚ) (hg : 0 < g)
    (hjx0 : ∀ b ∈ boxes, joined.x0 ≤ b.x0)
    (hjx1 : ∀ b ∈ boxes, b.x1 ≤ joined.x1)
    (hjy : ∀ b ∈ boxes, b.y1 ≤ joined.y1)
    (hatt : boxes = [] ∨ ∃ m ∈ boxes, m.y1 = joined.y1)
    (hnd : ∀ b ∈ boxes, b.x0 < b.x1 ∧ b.y0 < b.y1) :
    ∃ stripes, cluster_stripes boxes joined vectors g = some stripes ∧
      (stripes.flatten).Perm boxes := by
  simp only [cluster_stripes]
  rcases Bool.eq_false_or_eq_true boxes.isEmpty with hemp | hemp
  · rw [if_pos hemp]
    exact ⟨[], rfl, by simp [List.isEmpty_iff.mp hemp]⟩
  · rw [if_neg (by simp [hemp])]
    rcases Bool.eq_false_or_eq_true (is_multi_column_layout boxes) with hmc | hmc
    · rw [if_pos hmc]
      exact ⟨[boxes], rfl, by simp⟩
    · rw [if_neg (by simp [hmc])]
      have hne : boxes ≠ [] := by
        intro h
        rw [h, List.isEmpty_nil] at hemp
        exact Bool.noConfusion hemp
      obtain ⟨m, hmb, hmy⟩ := hatt.resolve_left hne
      have hsp : (List.insertionSort (fun a b : LBox => a.y1 ≤ b.y1) boxes).Perm
          boxes := List.perm_insertionSort _ _
      obtain ⟨ys, hys, hymem⟩ := div_y_fold_some boxes
        (List.insertionSort (fun a b : LBox => a.y1 ≤ b.y1) boxes) joined
        vectors g hg m (hsp.mem_iff.mpr hmb) hmb hmy (hjx0 m hmb) (hjx1 m hmb)
        (hnd m hmb) (List.insertionSort (fun a b : LBox => a.y1 ≤ b.y1) boxes)
        [joined.y1] (List.mem_cons_self _ _)
      rw [hys]
      refine ⟨stripes_of (List.insertionSort (fun a b : ℚ => a ≤ b) ys)
        (List.insertionSort (fun a b : LBox => a.y1 ≤ b.y1) boxes), rfl, ?_⟩
      have hflat : (stripes_of (List.insertionSort (fun a b : ℚ => a ≤ b) ys)
          (List.insertionSort (fun a b : LBox => a.y1 ≤ b.y1) boxes)).flatten
          = List.insertionSort (fun a b : LBox => a.y1 ≤ b.y1) boxes := by
        apply stripes_of_flatten
        refine ⟨joined.y1, ?_, ?_⟩
        · exact (List.perm_insertionSort (fun a b : ℚ => a ≤ b) ys).mem_iff.mpr
            hymem
        · intro b hb
          exact hjy b (hsp.mem_iff.mp hb)
      rw [hflat]
      exact hsp

/-- `compute_reading_order` succeeds and only reorders its boxes, under the
hypotheses of `cluster_stripes_result`. -/
theorem compute_reading_order_perm (boxes : List LBox) (joined : RectQ)
    (vectors : List RectQ) (g : ℚ) (hg : 0 < g)
    (hjx0 : ∀ b ∈ boxes, joined.x0 ≤ b.x0)
    (hjx1 : ∀ b ∈ boxes, b.x1 ≤ joined.x1)
    (hjy : ∀ b ∈ boxes, b.y1 ≤ joined.y1)
    (hatt : boxes = [] ∨ ∃ m ∈ boxes, m.y1 = joined.y1)
    (hnd : ∀ b ∈ boxes, b.x0 < b.x1 ∧ b.y0 < b.y1) :
    ∃ out, compute_reading_order boxes joined vectors g = some out ∧
      out.Perm boxes := by
  obtain ⟨stripes, hcs, hflat⟩ :=
    cluster_stripes_result boxes joined vectors g hg hjx0 hjx1 hjy hatt hnd
  simp only [compute_reading_order]
  rw [hcs]
  refine ⟨_, rfl, ?_⟩
  have hmem : ∀ s ∈ stripes, ∀ b ∈ s, b ∈ boxes := fun s hs b hb =>
    hflat.mem_iff.mp (List.mem_flatten.mpr ⟨s, hs, hb⟩)
  have key : ∀ ls : List (List LBox), (∀ s ∈ ls, ∀ b ∈ s, b ∈ boxes) →
      ((ls.map (fun s => (cluster_columns_in_stripe s).flatten)).flatten).Perm
        ls.flatten := by
    intro ls
    induction ls with
    | nil =>
      intro _
      exact List.Perm.refl _
    | cons s t iht =>
      intro hls
      simp only [List.map_cons, List.flatten_cons]
      exact List.Perm.append
        (cluster_columns_flatten_perm s (fun b hb =>
          hnd b (hls s (List.mem_cons_self s t) b hb)))
        (iht (fun u hu b hb => hls u (List.mem_cons_of_mem s hu) b hb))
  exact (key stripes hmem).trans hflat

/-- The keep-fold of `filter_contained` only ever emits boxes it was fed. -/
theorem foldl_keep_subset (P : LBox → Prop) :
    ∀ (l acc : List LBox), (∀ x ∈ acc, P x) → (∀ x ∈ l, P x) →
      ∀ x ∈ l.foldl (fun result r =>
        if result.any (fun other => is_contained r other) then result
        else result ++ [r]) acc, P x := by
  intro l
  induction l with
  | nil =>
    intro acc ha _ x hx
    exact ha x hx
  | cons r t ih =>
    intro acc ha hl x hx
    rw [List.foldl_cons] at hx
    by_cases hc : acc.any (fun other => is_contained r other) = true
    · rw [if_pos hc] at hx
      exact ih acc ha (fun y hy => hl y (List.mem_cons_of_mem r hy)) x hx
    · rw [if_neg hc] at hx
      refine ih (acc ++ [r]) ?_ (fun y hy => hl y (List.mem_cons_of_mem r hy)) x hx
      intro y hy
      rcases List.mem_append.mp hy with hy | hy
      · exact ha y hy
      · rw [List.mem_singleton.mp hy]
        exact hl r (List.mem_cons_self r t)

/-- Every box surviving `filter_contained` comes from the input list. -/
theorem filter_contained_subset (boxes : List LBox) :
    ∀ x ∈ filter_contained boxes, x ∈ boxes := by
  intro x hx
  exact foldl_keep_subset (fun b => b ∈ boxes)
    (List.insertionSort (fun a b => box_area b ≤ box_area a) boxes) []
    (fun y hy => absurd hy (List.not_mem_nil y))
    (fun y hy => (List.perm_insertionSort _ boxes).mem_iff.mp hy) x hx

/-- C3 (amended): for nondegenerate input boxes, a positive page height and
a positive vertical gap, `find_reading_order` succeeds and its output is a
permutation of the containment-filtered input `filter_contained boxes` — the
claimed permutation of the raw input fails because `filter_contained` drops
boxes that are geometrically contained in larger ones (see the
counterexample); downstream of that single dropping step, no box is
created, dropped, or duplicated, only reordered. -/
theorem C3_reading_order_permutation (page_height : ℚ) (blocks : List RectQ)
    (boxes : List LBox) (vertical_gap : ℚ)
    (hnd : ∀ b ∈ boxes, b.x0 < b.x1 ∧ b.y0 < b.y1)
    (hph : 0 < page_height) (hvg : 0 < vertical_gap) :
    ∃ out, find_reading_order page_height blocks boxes vertical_gap = some out ∧
      out.Perm (filter_contained boxes) := by
  simp only [find_reading_order]
  set F := filter_contained boxes with hF
  set BB := F.filter (fun b => !(decide (b.cls = "page-header")) &&
    !(decide (b.cls = "page-footer"))) with hBB
  have hFsub : ∀ x ∈ F, x ∈ boxes := by
    intro x hx
    rw [hF] at hx
    exact filter_contained_subset boxes x hx
  have hndF : ∀ b ∈ F, b.x0 < b.x1 ∧ b.y0 < b.y1 :=
    fun b hb => hnd b (hFsub b hb)
  have hndBB : ∀ b ∈ BB, b.x0 < b.x1 ∧ b.y0 < b.y1 := by
    intro b hb
    rw [hBB] at hb
    exact hndF b (List.mem_filter.mp hb).1
  have hfinal : ∀ body : List LBox, body.Perm BB →
      ((List.insertionSort header_le
          (F.filter (fun b => decide (b.cls = "page-header"))) ++ body ++
        List.insertionSort header_le
          (F.filter (fun b => decide (b.cls = "page-footer")))).Perm F) := by
    intro body hbody
    have hH := List.perm_insertionSort header_le
      (F.filter (fun b => decide (b.cls = "page-header")))
    have hFt := List.perm_insertionSort header_le
      (F.filter (fun b => decide (b.cls = "page-footer")))
    have hpoint : ∀ b ∈ F, (!(decide (b.cls = "page-header"))) =
        ((!(decide (b.cls = "page-header")) &&
            !(decide (b.cls = "page-footer"))) ||
          decide (b.cls = "page-footer")) ∧
        ¬((!(decide (b.cls = "page-header")) &&
            !(decide (b.cls = "page-footer"))) = true ∧
          (decide (b.cls = "page-footer")) = true) := by
      intro b _
      by_cases hh : b.cls = "page-header" <;> by_cases hf : b.cls = "page-footer"
      · exact absurd (hh.symm.trans hf) (by decide)
      · rw [decide_eq_true hh, decide_eq_false hf]
        exact ⟨by decide, by decide⟩
      · rw [decide_eq_false hh, decide_eq_true hf]
        exact ⟨by decide, by decide⟩
      · rw [decide_eq_false hh, decide_eq_false hf]
        exact ⟨by decide, by decide⟩
    have hsplit := filter_split F
      (fun b => !(decide (b.cls = "page-header")))
      (fun b => !(decide (b.cls = "page-header")) &&
        !(decide (b.cls = "page-footer")))
      (fun b => decide (b.cls = "page-footer"))
      hpoint
    refine ((hH.append hbody).append hFt).trans ?_
    rw [List.append_assoc]
    refine (List.Perm.append_left _ hsplit.symm).trans ?_
    exact List.filter_append_perm (fun b => decide (b.cls = "page-header")) F
  by_cases hbe : BB.isEmpty = true
  · rw [if_pos hbe]
    refine ⟨_, rfl, ?_⟩
    refine hfinal [] ?_
    rw [List.isEmpty_iff.mp hbe]
  · rw [if_neg hbe]
    set J : RectQ := ⟨((BB.map (fun b => b.x0)).min?).getD 0,
      ((BB.map (fun b => b.y0)).min?).getD 0,
      ((BB.map (fun b => b.x1)).max?).getD 0,
      ((BB.map (fun b => b.y1)).max?).getD 0⟩ with hJ
    set V := blocks.filter (fun r =>
      decide (((BB.map (fun b => b.y1 - b.y0)).min?).getD 0 ≤ r.y1 - r.y0) &&
        rect_in_rect r J) with hV
    have hBBne : BB ≠ [] := by
      intro h
      apply hbe
      rw [h]
      exact List.isEmpty_nil
    have hJx0 : ∀ b ∈ BB, J.x0 ≤ b.x0 := by
      intro b hb
      rw [hJ]
      exact min?_getD_le (List.mem_map_of_mem _ hb) 0
    have hJx1 : ∀ b ∈ BB, b.x1 ≤ J.x1 := by
      intro b hb
      rw [hJ]
      exact le_max?_getD (List.mem_map_of_mem _ hb) 0
    have hJy : ∀ b ∈ BB, b.y1 ≤ J.y1 := by
      intro b hb
      rw [hJ]
      exact le_max?_getD (List.mem_map_of_mem _ hb) 0
    have hAtt : ∃ mm ∈ BB, mm.y1 = J.y1 := by
      have hmm := max?_getD_mem (l := BB.map (fun b => b.y1))
        (by simpa using hBBne) 0
      obtain ⟨mm, hmm1, hmm2⟩ := List.mem_map.mp hmm
      refine ⟨mm, hmm1, ?_⟩
      rw [hJ]
      exact hmm2
    have hJne : bbox_is_empty J = false := by
      obtain ⟨b0, hb0⟩ := List.exists_mem_of_ne_nil BB hBBne
      have h1 := hJx0 b0 hb0
      have h2 := hJx1 b0 hb0
      have h4 := hJy b0 hb0
      have h3 : J.y0 ≤ b0.y0 := by
        rw [hJ]
        exact min?_getD_le (List.mem_map_of_mem _ hb0) 0
      have hb0nd := hndBB b0 hb0
      unfold bbox_is_empty
      rw [decide_eq_false (not_le.mpr (by linarith : J.x0 < J.x1)),
        decide_eq_false (not_le.mpr (by linarith : J.y0 < J.y1))]
      rfl
    have htvg : 0 < vertical_gap * page_height / 800 := by positivity
    obtain ⟨body, hbody, hbperm⟩ := compute_reading_order_perm BB J V
      (vertical_gap * page_height / 800) htvg hJx0 hJx1 hJy (Or.inr hAtt) hndBB
    rw [if_neg (by simp [hJne]), hbody]
    exact ⟨_, rfl, hfinal body hbperm⟩

/-- Witness for C3 at a concrete one-box page. -/
theorem C3_reading_order_permutation_witness :
    ∃ out, find_reading_order 800 [] [box_small] 12 = some out ∧
      out.Perm (filter_contained [box_small]) :=
  C3_reading_order_permutation 800 [] [box_small] 12 (by decide) (by norm_num)
    (by norm_num)

/-- C3 counterexample: with one box strictly inside another, the engine's
`filter_contained` step drops the inner box, so the ordered output is not a
permutation of the raw input list. -/
theorem C3_counterexample :
    find_reading_order 800 [] [box_big, box_small] 12 = some [box_big] ∧
    ¬ (([box_big] : List LBox).Perm [box_big, box_small]) := by
  constructor
  · have hfc : filter_contained [box_big, box_small] = [box_big] := by
      have h1 : box_area box_small ≤ box_area box_big := by
        norm_num [box_area, box_big, box_small]
      simp only [filter_contained, List.insertionSort, List.orderedInsert]
      rw [if_pos h1]
      decide
    simp only [find_reading_order, hfc]
    rfl
  · intro h
    have hlen := h.length_eq
    simp at hlen
